import Mathlib

/-!
Verification development for the projects-ux plugin
(src/extensions/projects-ux/index.ts).

The TypeScript source is shallowly embedded: every stateful handler is
modelled as a pure function from the stored peer state (plus the inputs the
handler reads - clock values, random nonces, message ids, configuration)
to the peer state that ends up persisted in the store, together with the
user-visible reply.  File-system effects (backup copies) are outside the
state model; the state-transition part of each operation is embedded
faithfully, assuming the backup copy step succeeded.

JS strings are modelled as Lean `String`; the ASCII fragment of
`toLowerCase`/`trim` is embedded explicitly so that all definitions are
kernel-executable.
-/

namespace ProjectsUx

/-! ## JS string primitives (ASCII fragment) -/

/-- ASCII lower-casing of one character, as `String.prototype.toLowerCase`
acts on the ASCII range. -/
def jsLowerChar (c : Char) : Char :=
  if 'A' ≤ c ∧ c ≤ 'Z' then Char.ofNat (c.toNat + 32) else c

def lowerChars (l : List Char) : List Char := l.map jsLowerChar

def lowerStr (s : String) : String := ⟨lowerChars s.data⟩

def jsWhitespace (c : Char) : Bool :=
  c = ' ' ∨ c = '\t' ∨ c = '\n' ∨ c = '\r'

def trimChars (l : List Char) : List Char :=
  ((l.dropWhile jsWhitespace).reverse.dropWhile jsWhitespace).reverse

/-- `String.prototype.trim` (ASCII whitespace fragment). -/
def jsTrim (s : String) : String := ⟨trimChars s.data⟩

def isPrefixChars : List Char → List Char → Bool
  | [], _ => true
  | _ :: _, [] => false
  | p :: ps, c :: cs => p = c && isPrefixChars ps cs

def isSuffixChars (pat l : List Char) : Bool :=
  isPrefixChars pat.reverse l.reverse

def isInfixChars (pat : List Char) : List Char → Bool
  | [] => isPrefixChars pat []
  | c :: cs => isPrefixChars pat (c :: cs) || isInfixChars pat cs

/-- `s.startsWith(pat)` on JS strings. -/
def jsStartsWith (s pat : String) : Bool := isPrefixChars pat.data s.data

/-- `s.includes(pat)` on JS strings. -/
def jsIncludes (s pat : String) : Bool := isInfixChars pat.data s.data

/-- Replace every maximal run of characters failing `good` by a single
hyphen (the effect of `replace(/[^...]+/g, "-")`).  `prevBad` records
whether the previously consumed character was part of a bad run. -/
def collapseBadAux (good : Char → Bool) (prevBad : Bool) : List Char → List Char
  | [] => []
  | c :: cs =>
    if good c then c :: collapseBadAux good false cs
    else if prevBad then collapseBadAux good true cs
    else '-' :: collapseBadAux good true cs

def collapseBad (good : Char → Bool) (l : List Char) : List Char :=
  collapseBadAux good false l

/-- The effect of `replace(/^-+|-+$/g, "")`. -/
def stripDashes (l : List Char) : List Char :=
  ((l.dropWhile (· = '-')).reverse.dropWhile (· = '-')).reverse

def slugChar (c : Char) : Bool :=
  ('a' ≤ c ∧ c ≤ 'z') ∨ ('0' ≤ c ∧ c ≤ '9')

def roomKeyChar (c : Char) : Bool :=
  slugChar c || c = '_' || c = '-'

/-- `slugifyId` from the source: trim, lower-case, collapse non-alphanumeric
runs to `-`, strip outer dashes, cap at 48 characters. -/
def slugifyId (input : String) : String :=
  ⟨(stripDashes (collapseBad slugChar (lowerChars (trimChars input.data)))).take 48⟩

/-- `sanitizeRoomKeySuffixToken` from the source: trim, lower-case, collapse
runs outside `[a-z0-9_-]` to `-`, strip outer dashes, cap at 80 characters. -/
def sanitizeRoomKeySuffixToken (input : String) : String :=
  ⟨(stripDashes (collapseBad roomKeyChar (lowerChars (trimChars input.data)))).take 80⟩

/-! ## Data model -/

structure Project where
  id : String
  name : String
  archived : Option Bool
  createdAt : String
  lastUsedAt : Option String
  note : Option String
  tokens : Option (List String)
deriving Repr, DecidableEq

inductive WipeKind where
  | all
  | project
deriving Repr, DecidableEq

structure PendingWipe where
  nonce : String
  createdAtMs : Nat
  kind : WipeKind
  projectId : Option String
  stamp : String
  backupDir : String
deriving Repr, DecidableEq

structure PeerState where
  projectsEnabled : Option Bool
  activeProjectId : String
  previousProjectId : Option String
  effectiveFromMessageId : Option Nat
  lastProjectId : Option String
  pendingReset : Option Bool
  projects : List Project
  globalTokens : Option (List String)
  pendingWipe : Option PendingWipe
deriving Repr, DecidableEq

/-- JS truthiness of `!p.archived`. -/
def nonArchived (p : Project) : Bool :=
  match p.archived with
  | some true => false
  | _ => true

/-- The default project id: `proj-` plus the slug of the default name,
falling back to `general` for an empty slug. -/
def defaultProjectId (dn : String) : String :=
  let s := slugifyId dn
  "proj-" ++ (if s = "" then "general" else s)

/-! ## ensureDefaultProject -/

/-- The legacy-inbox test from the migration loop in `ensureDefaultProject`. -/
def inboxish (p : Project) : Bool :=
  let name := lowerStr (jsTrim p.name)
  let id := lowerStr (jsTrim p.id)
  name = "inbox" || id = "proj-inbox" || jsStartsWith id "inbox-"

def renCond (dn : String) (p : Project) : Bool :=
  inboxish p && p.name ≠ dn

def renameLegacyOne (dn : String) (p : Project) : Project × Bool :=
  if renCond dn p then ({ p with name := dn }, true) else (p, false)

def renameLegacy (dn : String) : List Project → List Project × Bool
  | [] => ([], false)
  | p :: ps =>
    let q := renameLegacyOne dn p
    let r := renameLegacy dn ps
    (q.1 :: r.1, q.2 || r.2)

def ensureTokensOne (p : Project) : Project × Bool :=
  match p.tokens with
  | some _ => (p, false)
  | none => ({ p with tokens := some [] }, true)

def ensureTokensAll : List Project → List Project × Bool
  | [] => ([], false)
  | p :: ps =>
    let q := ensureTokensOne p
    let r := ensureTokensAll ps
    (q.1 :: r.1, q.2 || r.2)

/-- The default project created by `ensureDefaultProject` when the
collection is empty (`now` stands for `nowIso()`). -/
def mkDefaultProject (dn now : String) : Project :=
  { id := defaultProjectId dn, name := dn, archived := none,
    createdAt := now, lastUsedAt := some now, note := none, tokens := some [] }

/-- Stage (a) of `ensureDefaultProject`: the legacy-inbox rename loop. -/
def ensureStageRename (dn : String) (peer : PeerState) : PeerState × Bool :=
  let r := renameLegacy dn peer.projects
  ({ peer with projects := r.1 }, r.2)

/-- Stage (b): create the default project when the collection is empty. -/
def ensureStageCreate (dn now : String) (peer : PeerState) : PeerState × Bool :=
  if peer.projects.isEmpty then
    ({ peer with
        projects := [mkDefaultProject dn now],
        activeProjectId := defaultProjectId dn,
        lastProjectId := some (defaultProjectId dn),
        pendingReset := some false }, true)
  else (peer, false)

/-- Stage (c), first half: initialize every project's token array. -/
def ensureStageTokens (peer : PeerState) : PeerState × Bool :=
  let r := ensureTokensAll peer.projects
  ({ peer with projects := r.1 }, r.2)

/-- Stage (c), second half: initialize the global token array. -/
def ensureStageGlobal (peer : PeerState) : PeerState × Bool :=
  match peer.globalTokens with
  | some _ => (peer, false)
  | none => ({ peer with globalTokens := some [] }, true)

/-- Stage (d): repair an unset active project id. -/
def ensureStageActive (peer : PeerState) : PeerState × Bool :=
  if peer.activeProjectId = "" then
    match (peer.projects.find? nonArchived).orElse (fun _ => peer.projects.head?) with
    | some first => ({ peer with activeProjectId := first.id }, true)
    | none => (peer, false)
  else (peer, false)

/-- Stage (e): default the enabled flag to false when unset. -/
def ensureStageEnabled (peer : PeerState) : PeerState × Bool :=
  match peer.projectsEnabled with
  | some _ => (peer, false)
  | none => ({ peer with projectsEnabled := some false }, true)

/-- `ensureDefaultProject(peer, defaultProjectName)`: legacy rename, create
the default project when the collection is empty, initialize token arrays,
repair an unset active id, default the enabled flag.  Returns the updated
peer and the `changed` flag. -/
def ensureDefaultProject (peer : PeerState) (dn now : String) : PeerState × Bool :=
  let s1 := ensureStageRename dn peer
  let s2 := ensureStageCreate dn now s1.1
  let s3 := ensureStageTokens s2.1
  let s4 := ensureStageGlobal s3.1
  let s5 := ensureStageActive s4.1
  let s6 := ensureStageEnabled s5.1
  (s6.1, s1.2 || s2.2 || s3.2 || s4.2 || s5.2 || s6.2)

/-- `findProject(peer, key)`: exact id match first, then case-insensitive
name match. -/
def findProject (peer : PeerState) (key : String) : Option Project :=
  let trimmed := jsTrim key
  if trimmed = "" then none
  else
    match peer.projects.find? (fun p => p.id = trimmed) with
    | some p => some p
    | none => peer.projects.find? (fun p => lowerStr p.name = lowerStr trimmed)

/-! ## Peer identity resolution -/

/-- `buildPeerKeyFromCommandCtx`. -/
def buildPeerKeyFromCommandCtx (channel : Option String) (senderId : Option String) : String :=
  lowerStr (channel.getD "unknown") ++ ":" ++ senderId.getD "unknown"

/-- `extractTelegramDmPeerIdFromSessionKey`: after lower-casing, a session
key matching `/:telegram:dm:([^:]+)$/` yields the trailing colon-free
segment.  Because the captured group is anchored at the end and may not
contain a colon, it is exactly the maximal colon-free suffix of the key. -/
def extractTelegramDmPeerIdFromSessionKey (sessionKey : String) : Option String :=
  let l := lowerChars sessionKey.data
  let b := (l.reverse.takeWhile (fun c => c ≠ ':')).reverse
  if b ≠ [] ∧ isSuffixChars (":telegram:dm:".data ++ b) l then some ⟨b⟩ else none

/-- `buildPeerKeyFromBeforeAgentStart`. -/
def buildPeerKeyFromBeforeAgentStart
    (sessionKey channelId conversationId : Option String) : String :=
  let raw := sessionKey.getD ""
  let sk := lowerStr raw
  let channel := lowerStr (channelId.getD "unknown")
  let viaTelegram : Option String :=
    if channel = "telegram" ∨ jsIncludes sk ":telegram:" then
      match extractTelegramDmPeerIdFromSessionKey sk with
      | some peer => some ("telegram:" ++ peer)
      | none => none
    else none
  match viaTelegram with
  | some k => k
  | none =>
    let conv := jsTrim (conversationId.getD "")
    if conv ≠ "" then channel ++ ":" ++ conv
    else if raw ≠ "" then channel ++ ":" ++ raw
    else channel ++ ":unknown"

/-! ## Wipe state machine -/

/-- The confirm window: `wipeConfirmTtlMs = 2 * 60 * 1000`. -/
def wipeConfirmTtlMs : Nat := 120000

/-- The fresh peer that `withPeerState` starts from when no state exists. -/
def freshCommandPeer : PeerState :=
  { projectsEnabled := some false, activeProjectId := "",
    previousProjectId := none, effectiveFromMessageId := none,
    lastProjectId := none, pendingReset := none, projects := [],
    globalTokens := none, pendingWipe := none }

/-- The fresh peer the `wipe` subcommand starts from when no state exists
(it additionally initializes `globalTokens`). -/
def freshWipeBranchPeer : PeerState :=
  { projectsEnabled := some false, activeProjectId := "",
    previousProjectId := none, effectiveFromMessageId := none,
    lastProjectId := none, pendingReset := none, projects := [],
    globalTokens := some [], pendingWipe := none }

/-- `wipeProjectsUxForPeer`: the peer state written back after a wipe-all:
a fresh Classic-mode peer, self-healed by `ensureDefaultProject`. -/
def freshWipedPeer (dn now : String) (messageId : Option Nat) : PeerState :=
  (ensureDefaultProject
    { projectsEnabled := some false, activeProjectId := "",
      previousProjectId := some "", effectiveFromMessageId := messageId,
      lastProjectId := some "", pendingReset := some false, projects := [],
      globalTokens := some [], pendingWipe := none } dn now).1

/-- State-transition part of `backupAndWipeOneProject`, assuming the
pre-mutation backup copy succeeded.  The first component is the peer the
store holds afterwards (`none` when there was no peer to begin with and
nothing was written); the Bool is the `ok` flag of the result. -/
def backupAndWipeOneProjectState (stored : Option PeerState) (projectId : String)
    (dn now : String) (messageId : Option Nat) : Option PeerState × Bool × String :=
  match stored with
  | none => (none, false, "Refused: no peer state.")
  | some peer =>
    let p0 := { peer with pendingWipe := none }
    let p1 := (ensureDefaultProject p0 dn now).1
    if projectId = defaultProjectId dn then
      (some peer, false, "Refused: default project cannot be wiped.")
    else
      match p1.projects.find? (fun p => p.id = projectId && nonArchived p) with
      | none => (some peer, false, "Refused: unknown projectId: " ++ projectId)
      | some target =>
        let p2 := { p1 with projects := p1.projects.filter (fun p => p.id ≠ projectId) }
        let wasActive := p1.activeProjectId = projectId
        let wasPrev := p1.previousProjectId = some projectId
        let wasLast := p1.lastProjectId = some projectId
        let p3 :=
          if wasActive ∨ wasPrev ∨ wasLast then
            { p2 with activeProjectId := defaultProjectId dn,
                      previousProjectId := none,
                      lastProjectId := some (defaultProjectId dn),
                      pendingReset := some true }
          else p2
        let p4 :=
          match p3.projectsEnabled with
          | some _ => p3
          | none => { p3 with projectsEnabled := some false }
        let p5 :=
          match messageId with
          | some m => { p4 with effectiveFromMessageId := some m }
          | none => p4
        let p6 := (ensureDefaultProject p5 dn now).1
        (some p6, true, "WIPED project: " ++ target.name ++ " (" ++ projectId ++ ")")

/-- `/projects wipe confirm <nonce>` acting on the stored peer.  Returns
the peer the store holds afterwards, whether the wipe-all executed, and
the reply text. -/
def confirmAll (peer : PeerState) (argNonce : String) (nowMs : Nat)
    (dn now : String) (messageId : Option Nat) : PeerState × Bool × String :=
  match peer.pendingWipe with
  | none => (peer, false, "No wipe pending. Use /projects -> More -> Reset")
  | some pending =>
    let expired := nowMs - pending.createdAtMs > wipeConfirmTtlMs
    let mismatch := argNonce = "" ∨ argNonce ≠ pending.nonce ∨ pending.kind ≠ WipeKind.all
    let cleared := { peer with pendingWipe := none }
    if expired then (cleared, false, "Refused: nonce expired. Re-run Reset")
    else if mismatch then (cleared, false, "Refused: nonce mismatch or wrong scope. Re-run Reset")
    else (freshWipedPeer dn now messageId, true, "WIPED ALL projects state for this DM.")

/-- `/projects wipe project confirm <nonce> <id>` acting on the stored
peer.  Returns the stored peer afterwards, whether the per-project wipe
executed, and the reply text. -/
def confirmProject (peer : PeerState) (argNonce argProjectId : String) (nowMs : Nat)
    (dn now : String) (messageId : Option Nat) : PeerState × Bool × String :=
  match peer.pendingWipe with
  | none => (peer, false, "No wipe pending. Use /projects -> More -> Reset")
  | some pending =>
    let expired := nowMs - pending.createdAtMs > wipeConfirmTtlMs
    let pidFalsy := pending.projectId = none ∨ pending.projectId = some ""
    let mismatch := argNonce = "" ∨ argNonce ≠ pending.nonce ∨
      pending.kind ≠ WipeKind.project ∨ pidFalsy ∨ pending.projectId ≠ some argProjectId
    let cleared := { peer with pendingWipe := none }
    if expired then (cleared, false, "Refused: nonce expired. Re-run Reset")
    else if mismatch then (cleared, false, "Refused: nonce mismatch or wrong projectId. Re-run Reset")
    else
      let r := backupAndWipeOneProjectState (some cleared) argProjectId dn now messageId
      (r.1.getD cleared, r.2.1, r.2.2)

/-- `/projects reset remove <projectId>`: validates and arms a per-project
wipe.  `nonce`, `nowMs`, `stamp` stand for the generated nonce, `Date.now()`
and the backup stamp; `parentDir` is the plugin directory's parent.
Returns the stored peer afterwards and the reply. -/
def handleResetRemove (stored : Option PeerState) (projectId : String)
    (nonce : String) (nowMs : Nat) (stamp parentDir : String)
    (dn now : String) : Option PeerState × String :=
  match stored with
  | none => (none, "No Projects state yet for this DM.")
  | some peer =>
    let p1 := (ensureDefaultProject peer dn now).1
    if projectId = "" then
      (some p1, "Select a project to wipe (default project cannot be removed):")
    else if projectId = defaultProjectId dn then
      (some p1, "Refused: default project cannot be wiped.")
    else
      match p1.projects.find? (fun p => p.id = projectId && nonArchived p) with
      | none => (some p1, "Refused: unknown projectId: " ++ projectId)
      | some project =>
        let pending : PendingWipe :=
          { nonce := nonce, createdAtMs := nowMs, kind := WipeKind.project,
            projectId := some projectId, stamp := stamp,
            backupDir := parentDir ++ "/backup_projects_ux_" ++ stamp }
        (some { p1 with pendingWipe := some pending },
         "This will wipe ONE project for this DM: " ++ project.name)

/-- The `wipe` subcommand dispatcher (`parts` is the whitespace-split
argument list, whose head is the `wipe` token itself).  Returns the peer
the store holds afterwards (`none` when nothing was ever written), whether
a wipe executed, and the reply. -/
def handleWipe (stored : Option PeerState) (parts : List String)
    (nowMs : Nat) (nonce stamp parentDir : String)
    (dn now : String) (messageId : Option Nat) : Option PeerState × Bool × String :=
  let peer := stored.getD freshWipeBranchPeer
  let action := lowerStr ((parts.get? 1).getD "")
  if action = "cancel" then
    match peer.pendingWipe with
    | some _ => (some { peer with pendingWipe := none }, false, "Cancelled. Nothing was deleted.")
    | none => (stored, false, "Cancelled. Nothing was deleted.")
  else if action = "confirm" then
    let r := confirmAll peer ((parts.get? 2).getD "") nowMs dn now messageId
    match peer.pendingWipe with
    | none => (stored, r.2.1, r.2.2)
    | some _ => (some r.1, r.2.1, r.2.2)
  else if action = "project" ∧ lowerStr ((parts.get? 2).getD "") = "confirm" then
    let r := confirmProject peer ((parts.get? 3).getD "") ((parts.get? 4).getD "")
      nowMs dn now messageId
    match peer.pendingWipe with
    | none => (stored, r.2.1, r.2.2)
    | some _ => (some r.1, r.2.1, r.2.2)
  else
    let pending : PendingWipe :=
      { nonce := nonce, createdAtMs := nowMs, kind := WipeKind.all,
        projectId := none, stamp := stamp,
        backupDir := parentDir ++ "/backup_projects_ux_" ++ stamp }
    (some { peer with pendingWipe := some pending }, false,
     "This will WIPE ALL Projects-UX state for this DM (recovery).")

/-! ## switch / new -/

/-- The peer state after the common prefix of the `switch` and `new`
handlers: ensureDefaultProject followed by `projectsEnabled = true`. -/
def healedEnabled (peer : PeerState) (dn now : String) : PeerState :=
  { (ensureDefaultProject peer dn now).1 with projectsEnabled := some true }

/-- `/projects switch <name|id>`: the peer persisted by `withPeerState`
plus the handler result.  `chTelegram` tells whether `ctx.channel` is
`telegram`. -/
def handleSwitch (stored : Option PeerState) (key : String)
    (dn now : String) (chTelegram : Bool) (messageId : Option Nat) :
    Option PeerState × Bool × String :=
  if jsTrim key = "" then (stored, false, "Usage: /projects switch <name|id>")
  else
    let p2 := healedEnabled (stored.getD freshCommandPeer) dn now
    match findProject p2 key with
    | none => (some p2, false, "Project not found: " ++ jsTrim key)
    | some project =>
      if project.archived = some true then
        (some p2, false, "Project not found: " ++ jsTrim key)
      else
        let p3 :=
          { p2 with
              previousProjectId :=
                if p2.activeProjectId ≠ "" then some p2.activeProjectId
                else p2.previousProjectId,
              activeProjectId := project.id,
              lastProjectId := some project.id,
              projects := p2.projects.map (fun q =>
                if q.id = project.id then { q with lastUsedAt := some now } else q),
              pendingReset := some true }
        let p4 :=
          if chTelegram then
            match messageId with
            | some m => { p3 with effectiveFromMessageId := some m }
            | none => p3
          else p3
        (some p4, true, "Switched to project: " ++ project.name ++ " (" ++ project.id ++ ")")

/-- `/projects new <name>` (`rawName` is the text after the `new` token,
`rid` the randomized fallback id). -/
def handleNew (stored : Option PeerState) (rawName : String) (rid : String)
    (maxProjects : Nat) (dn now : String) (chTelegram : Bool)
    (messageId : Option Nat) : Option PeerState × Bool × String :=
  let name := jsTrim rawName
  if name = "" then (stored, false, "Usage: /projects new <name>")
  else
    let p2 := healedEnabled (stored.getD freshCommandPeer) dn now
    match p2.projects.find? (fun p => nonArchived p && lowerStr p.name = lowerStr name) with
    | some existing =>
      let p3 :=
        { p2 with
            previousProjectId :=
              if p2.activeProjectId ≠ "" then some p2.activeProjectId
              else p2.previousProjectId,
            activeProjectId := existing.id,
            lastProjectId := some existing.id,
            projects := p2.projects.map (fun q =>
              if q.id = existing.id then { q with lastUsedAt := some now } else q),
            pendingReset := some true }
      let p4 :=
        if chTelegram then
          match messageId with
          | some m => { p3 with effectiveFromMessageId := some m }
          | none => p3
        else p3
      (some p4, true, "Switched to existing project: " ++ existing.name)
    | none =>
      let slug := slugifyId name
      let finalId := if slug ≠ "" then "proj-" ++ slug else rid
      if maxProjects ≤ (p2.projects.filter nonArchived).length then
        (some p2, false,
         "Project limit reached (" ++ toString maxProjects ++ "). Archive old projects first.")
      else
        let project : Project :=
          { id := finalId, name := name, archived := none, createdAt := now,
            lastUsedAt := some now, note := none, tokens := none }
        let p3 :=
          { p2 with
              projects := p2.projects ++ [project],
              previousProjectId :=
                if p2.activeProjectId ≠ "" then some p2.activeProjectId
                else p2.previousProjectId,
              activeProjectId := project.id,
              lastProjectId := some project.id,
              pendingReset := some true }
        let p4 :=
          if chTelegram then
            match messageId with
            | some m => { p3 with effectiveFromMessageId := some m }
            | none => p3
          else p3
        (some p4, true, "Created and switched to project: " ++ name)

/-! ## resolve_room_key -/

/-- The `resolve_room_key` handler: given the configuration flag, the event
fields and the stored peer, the optional replacement routing key. -/
def resolveRoomKey (hardIsolationEnabled : Bool) (channel peerKind peerId : String)
    (messageId : Option Nat) (roomKey : String) (stored : Option PeerState)
    (dn now : String) : Option String :=
  if ¬ hardIsolationEnabled then none
  else if channel ≠ "telegram" then none
  else if peerKind ≠ "dm" then none
  else if jsTrim peerId = "" then none
  else
    match stored with
    | none => none
    | some peer =>
      let p1 := (ensureDefaultProject peer dn now).1
      if p1.projectsEnabled ≠ some true then none
      else
        let activeId :=
          match messageId, p1.effectiveFromMessageId with
          | some m, some e =>
            if m < e then p1.previousProjectId.getD p1.activeProjectId
            else p1.activeProjectId
          | _, _ => p1.activeProjectId
        let suffix := sanitizeRoomKeySuffixToken activeId
        if suffix = "" then none
        else
          let base := jsTrim roomKey
          if base = "" then none
          else some (base ++ ":proj:" ++ suffix)

/-! ## Structural lemmas -/

theorem data_append (a b : String) : (a ++ b).data = a.data ++ b.data := by
  cases a; cases b; rfl

theorem defaultProjectId_ne_empty (dn : String) : defaultProjectId dn ≠ "" := by
  unfold defaultProjectId
  intro h
  have hdata := congrArg String.data h
  rw [data_append] at hdata
  simp at hdata

theorem renCond_of_name_eq {dn : String} {p : Project} (h : p.name = dn) :
    renCond dn p = false := by
  simp [renCond, h]

theorem renameLegacyOne_id (dn : String) (p : Project) :
    ((renameLegacyOne dn p).1).id = p.id := by
  unfold renameLegacyOne
  split <;> rfl

theorem renameLegacyOne_archived (dn : String) (p : Project) :
    ((renameLegacyOne dn p).1).archived = p.archived := by
  unfold renameLegacyOne
  split <;> rfl

theorem renameLegacyOne_tokens (dn : String) (p : Project) :
    ((renameLegacyOne dn p).1).tokens = p.tokens := by
  unfold renameLegacyOne
  split <;> rfl

theorem renCond_renameLegacyOne (dn : String) (p : Project) :
    renCond dn ((renameLegacyOne dn p).1) = false := by
  unfold renameLegacyOne
  by_cases h : renCond dn p = true
  · rw [if_pos h]
    exact renCond_of_name_eq rfl
  · rw [if_neg h]
    exact Bool.not_eq_true _ |>.mp h

theorem renameLegacyOne_of_cond_false {dn : String} {p : Project}
    (h : renCond dn p = false) : renameLegacyOne dn p = (p, false) := by
  unfold renameLegacyOne
  rw [if_neg]
  simp [h]

theorem renameLegacy_fst_map (dn : String) (ps : List Project) :
    (renameLegacy dn ps).1 = ps.map (fun p => (renameLegacyOne dn p).1) := by
  induction ps with
  | nil => rfl
  | cons p ps ih => simp [renameLegacy, ih]

theorem renameLegacy_self {dn : String} {ps : List Project}
    (h : ∀ p ∈ ps, renCond dn p = false) : renameLegacy dn ps = (ps, false) := by
  induction ps with
  | nil => rfl
  | cons p ps ih =>
    have hp := renameLegacyOne_of_cond_false (h p (by simp))
    have hps := ih (fun q hq => h q (by simp [hq]))
    simp [renameLegacy, hp, hps]

theorem ensureTokensOne_id (p : Project) : ((ensureTokensOne p).1).id = p.id := by
  unfold ensureTokensOne
  split <;> rfl

theorem ensureTokensOne_name (p : Project) : ((ensureTokensOne p).1).name = p.name := by
  unfold ensureTokensOne
  split <;> rfl

theorem ensureTokensOne_archived (p : Project) :
    ((ensureTokensOne p).1).archived = p.archived := by
  unfold ensureTokensOne
  split <;> rfl

theorem ensureTokensOne_isSome (p : Project) :
    ((ensureTokensOne p).1).tokens.isSome := by
  unfold ensureTokensOne
  split
  next h => simp_all
  next => simp

theorem ensureTokensOne_of_isSome {p : Project} (h : p.tokens.isSome) :
    ensureTokensOne p = (p, false) := by
  unfold ensureTokensOne
  obtain ⟨t, ht⟩ := Option.isSome_iff_exists.mp h
  rw [ht]

theorem ensureTokensAll_fst_map (ps : List Project) :
    (ensureTokensAll ps).1 = ps.map (fun p => (ensureTokensOne p).1) := by
  induction ps with
  | nil => rfl
  | cons p ps ih => simp [ensureTokensAll, ih]

theorem ensureTokensAll_self {ps : List Project}
    (h : ∀ p ∈ ps, p.tokens.isSome) : ensureTokensAll ps = (ps, false) := by
  induction ps with
  | nil => rfl
  | cons p ps ih =>
    have hp := ensureTokensOne_of_isSome (h p (by simp))
    have hps := ih (fun q hq => h q (by simp [hq]))
    simp [ensureTokensAll, hp, hps]

theorem renCond_ensureTokensOne (dn : String) (p : Project) :
    renCond dn ((ensureTokensOne p).1) = renCond dn p := by
  unfold ensureTokensOne
  split <;> simp [renCond, inboxish]

theorem find_some_of_mem {α : Type} (q : α → Bool) (l : List α) (a : α)
    (ha : a ∈ l) (hq : q a = true) : ∃ b, l.find? q = some b := by
  cases hfind : l.find? q with
  | some b => exact ⟨b, rfl⟩
  | none => exact absurd hq (by simpa using List.find?_eq_none.mp hfind a ha)

/-! ## Stage lemmas for ensureDefaultProject -/

theorem stageRename_fst (dn : String) (peer : PeerState) :
    (ensureStageRename dn peer).1 =
      { peer with projects := peer.projects.map (fun p => (renameLegacyOne dn p).1) } := by
  simp [ensureStageRename, renameLegacy_fst_map]

theorem stageRename_self {dn : String} {peer : PeerState}
    (h : ∀ p ∈ peer.projects, renCond dn p = false) :
    ensureStageRename dn peer = (peer, false) := by
  simp [ensureStageRename, renameLegacy_self h]

theorem stageCreate_of_ne_nil {dn now : String} {peer : PeerState}
    (h : peer.projects ≠ []) : ensureStageCreate dn now peer = (peer, false) := by
  have hie : peer.projects.isEmpty = false := by
    cases hp : peer.projects
    · exact absurd hp h
    · rfl
  simp [ensureStageCreate, hie]

theorem stageCreate_of_nil {dn now : String} {peer : PeerState}
    (h : peer.projects = []) :
    ensureStageCreate dn now peer =
      ({ peer with
          projects := [mkDefaultProject dn now],
          activeProjectId := defaultProjectId dn,
          lastProjectId := some (defaultProjectId dn),
          pendingReset := some false }, true) := by
  simp [ensureStageCreate, h]

theorem stageTokens_fst (peer : PeerState) :
    (ensureStageTokens peer).1 =
      { peer with projects := peer.projects.map (fun p => (ensureTokensOne p).1) } := by
  simp [ensureStageTokens, ensureTokensAll_fst_map]

theorem stageTokens_self {peer : PeerState}
    (h : ∀ p ∈ peer.projects, p.tokens.isSome) :
    ensureStageTokens peer = (peer, false) := by
  simp [ensureStageTokens, ensureTokensAll_self h]

theorem stageGlobal_fst (peer : PeerState) :
    (ensureStageGlobal peer).1 =
      { peer with globalTokens := some (peer.globalTokens.getD []) } := by
  cases h : peer.globalTokens with
  | none => simp [ensureStageGlobal, h]
  | some g =>
    simp only [ensureStageGlobal, h, Option.getD_some]
    conv_rhs => rw [← h]

theorem stageGlobal_self {peer : PeerState} (h : peer.globalTokens.isSome) :
    ensureStageGlobal peer = (peer, false) := by
  obtain ⟨g, hg⟩ := Option.isSome_iff_exists.mp h
  simp [ensureStageGlobal, hg]

theorem stageActive_self {peer : PeerState} (h : peer.activeProjectId ≠ "") :
    ensureStageActive peer = (peer, false) := by
  simp [ensureStageActive, h]

theorem orElse_head_of_ne_nil {L : List Project} (h : L ≠ []) :
    ∃ x, ((L.find? nonArchived).orElse (fun _ => L.head?)) = some x ∧ x ∈ L := by
  cases hf : L.find? nonArchived with
  | some x => exact ⟨x, by simp [Option.orElse, hf], List.mem_of_find?_eq_some hf⟩
  | none =>
    cases L with
    | nil => exact absurd rfl h
    | cons a l => exact ⟨a, by simp [Option.orElse, hf], by simp⟩

theorem stageActive_of_empty {peer : PeerState}
    (h : peer.activeProjectId = "") (hne : peer.projects ≠ []) :
    ∃ x ∈ peer.projects,
      ensureStageActive peer = ({ peer with activeProjectId := x.id }, true) := by
  obtain ⟨x, hx, hxm⟩ := orElse_head_of_ne_nil hne
  exact ⟨x, hxm, by simp [ensureStageActive, h, hx]⟩

theorem stageEnabled_fst (peer : PeerState) :
    (ensureStageEnabled peer).1 =
      { peer with projectsEnabled := some (peer.projectsEnabled.getD false) } := by
  cases h : peer.projectsEnabled with
  | none => simp [ensureStageEnabled, h]
  | some e =>
    simp only [ensureStageEnabled, h, Option.getD_some]
    conv_rhs => rw [← h]

theorem stageEnabled_self {peer : PeerState} (h : peer.projectsEnabled.isSome) :
    ensureStageEnabled peer = (peer, false) := by
  obtain ⟨e, he⟩ := Option.isSome_iff_exists.mp h
  simp [ensureStageEnabled, he]

/-- Field-preservation facts for the create stage. -/
theorem stageCreate_untouched (dn now : String) (peer : PeerState) :
    ((ensureStageCreate dn now peer).1.pendingWipe = peer.pendingWipe) ∧
    ((ensureStageCreate dn now peer).1.effectiveFromMessageId = peer.effectiveFromMessageId) ∧
    ((ensureStageCreate dn now peer).1.previousProjectId = peer.previousProjectId) ∧
    ((ensureStageCreate dn now peer).1.globalTokens = peer.globalTokens) ∧
    ((ensureStageCreate dn now peer).1.projectsEnabled = peer.projectsEnabled) := by
  unfold ensureStageCreate
  split <;> exact ⟨rfl, rfl, rfl, rfl, rfl⟩

/-- Field-preservation facts for the active-repair stage. -/
theorem stageActive_untouched (peer : PeerState) :
    ((ensureStageActive peer).1.pendingWipe = peer.pendingWipe) ∧
    ((ensureStageActive peer).1.effectiveFromMessageId = peer.effectiveFromMessageId) ∧
    ((ensureStageActive peer).1.previousProjectId = peer.previousProjectId) ∧
    ((ensureStageActive peer).1.globalTokens = peer.globalTokens) ∧
    ((ensureStageActive peer).1.projectsEnabled = peer.projectsEnabled) ∧
    ((ensureStageActive peer).1.projects = peer.projects) ∧
    ((ensureStageActive peer).1.lastProjectId = peer.lastProjectId) ∧
    ((ensureStageActive peer).1.pendingReset = peer.pendingReset) := by
  unfold ensureStageActive
  (repeat' split) <;> exact ⟨rfl, rfl, rfl, rfl, rfl, rfl, rfl, rfl⟩

/-- The active id after the active-repair stage is non-empty provided it
was non-empty, or the projects are non-empty with non-empty ids. -/
theorem stageActive_active_ne (peer : PeerState)
    (h : peer.activeProjectId ≠ "" ∨
         (peer.projects ≠ [] ∧ ∀ p ∈ peer.projects, p.id ≠ "")) :
    (ensureStageActive peer).1.activeProjectId ≠ "" := by
  by_cases ha : peer.activeProjectId = ""
  · rcases h with hc | ⟨hne, hids⟩
    · exact absurd ha hc
    · obtain ⟨x, hxm, hx⟩ := stageActive_of_empty ha hne
      rw [hx]
      exact hids x hxm
  · rw [stageActive_self ha]
    exact ha

/-- Unfolding `ensureDefaultProject` into its stage pipeline. -/
theorem ensureDefaultProject_decomp (peer : PeerState) (dn now : String) :
    (ensureDefaultProject peer dn now).1 =
      (ensureStageEnabled (ensureStageActive (ensureStageGlobal (ensureStageTokens
        (ensureStageCreate dn now (ensureStageRename dn peer).1).1).1).1).1).1 := rfl

/-! ## Main lemmas for ensureDefaultProject -/

/-- A peer satisfying all self-healing conditions is a fixed point of
`ensureDefaultProject` and reports no change. -/
theorem ensureDefaultProject_self (peer : PeerState) (dn now : String)
    (h1 : ∀ p ∈ peer.projects, renCond dn p = false)
    (h2 : peer.projects ≠ [])
    (h3 : ∀ p ∈ peer.projects, p.tokens.isSome)
    (h4 : peer.globalTokens.isSome)
    (h5 : peer.activeProjectId ≠ "")
    (h6 : peer.projectsEnabled.isSome) :
    ensureDefaultProject peer dn now = (peer, false) := by
  simp [ensureDefaultProject, stageRename_self h1, stageCreate_of_ne_nil h2,
    stageTokens_self h3, stageGlobal_self h4, stageActive_self h5, stageEnabled_self h6]

/-- `ensureDefaultProject` on a peer with an empty collection: the default
project is created and made active. -/
theorem ensureDefaultProject_empty (peer : PeerState) (dn now : String)
    (h : peer.projects = []) :
    ensureDefaultProject peer dn now =
      ({ peer with
          projects := [mkDefaultProject dn now],
          activeProjectId := defaultProjectId dn,
          lastProjectId := some (defaultProjectId dn),
          pendingReset := some false,
          globalTokens := some (peer.globalTokens.getD []),
          projectsEnabled := some (peer.projectsEnabled.getD false) }, true) := by
  have h1 : ∀ p ∈ peer.projects, renCond dn p = false := by
    simp [h]
  have hactive := defaultProjectId_ne_empty dn
  cases hg : peer.globalTokens <;> cases he : peer.projectsEnabled <;>
    simp [ensureDefaultProject, stageRename_self h1, stageCreate_of_nil h,
      ensureStageTokens, ensureTokensAll, ensureTokensOne, mkDefaultProject,
      ensureStageGlobal, ensureStageActive, ensureStageEnabled, hg, he, hactive]

/-- `ensureDefaultProject` never touches the previous project id, the
effective-from message id, or the pending wipe. -/
theorem ensureDefaultProject_untouched (peer : PeerState) (dn now : String) :
    ((ensureDefaultProject peer dn now).1.pendingWipe = peer.pendingWipe) ∧
    ((ensureDefaultProject peer dn now).1.effectiveFromMessageId = peer.effectiveFromMessageId) ∧
    ((ensureDefaultProject peer dn now).1.previousProjectId = peer.previousProjectId) := by
  rw [ensureDefaultProject_decomp]
  generalize hR : (ensureStageRename dn peer).1 = pR
  have hRw : pR.pendingWipe = peer.pendingWipe ∧
      pR.effectiveFromMessageId = peer.effectiveFromMessageId ∧
      pR.previousProjectId = peer.previousProjectId := by
    rw [← hR, stageRename_fst]
    exact ⟨rfl, rfl, rfl⟩
  generalize hC : (ensureStageCreate dn now pR).1 = pC
  have hCw := stageCreate_untouched dn now pR
  rw [hC] at hCw
  generalize hT : (ensureStageTokens pC).1 = pT
  have hTw : pT.pendingWipe = pC.pendingWipe ∧
      pT.effectiveFromMessageId = pC.effectiveFromMessageId ∧
      pT.previousProjectId = pC.previousProjectId := by
    rw [← hT, stageTokens_fst]
    exact ⟨rfl, rfl, rfl⟩
  generalize hG : (ensureStageGlobal pT).1 = pG
  have hGw : pG.pendingWipe = pT.pendingWipe ∧
      pG.effectiveFromMessageId = pT.effectiveFromMessageId ∧
      pG.previousProjectId = pT.previousProjectId := by
    rw [← hG, stageGlobal_fst]
    exact ⟨rfl, rfl, rfl⟩
  generalize hA : (ensureStageActive pG).1 = pA
  have hAw := stageActive_untouched pG
  rw [hA] at hAw
  have hEw : (ensureStageEnabled pA).1.pendingWipe = pA.pendingWipe ∧
      (ensureStageEnabled pA).1.effectiveFromMessageId = pA.effectiveFromMessageId ∧
      (ensureStageEnabled pA).1.previousProjectId = pA.previousProjectId := by
    rw [stageEnabled_fst]
    exact ⟨rfl, rfl, rfl⟩
  refine ⟨?_, ?_, ?_⟩ <;>
    simp only [hEw.1, hEw.2.1, hEw.2.2, hAw.1, hAw.2.1, hAw.2.2,
      hGw.1, hGw.2.1, hGw.2.2, hTw.1, hTw.2.1, hTw.2.2,
      hCw.1, hCw.2.1, hCw.2.2, hRw.1, hRw.2.1, hRw.2.2]

/-- The collection after `ensureDefaultProject`, when it was non-empty. -/
theorem ensureDefaultProject_projects (peer : PeerState) (dn now : String)
    (h : peer.projects ≠ []) :
    (ensureDefaultProject peer dn now).1.projects =
      peer.projects.map (fun p => (ensureTokensOne (renameLegacyOne dn p).1).1) := by
  rw [ensureDefaultProject_decomp]
  generalize hR : (ensureStageRename dn peer).1 = pR
  have hRp : pR.projects = peer.projects.map (fun p => (renameLegacyOne dn p).1) := by
    rw [← hR, stageRename_fst]
  have hC : ensureStageCreate dn now pR = (pR, false) :=
    stageCreate_of_ne_nil (by simp [hRp, h])
  rw [hC]
  generalize hT : (ensureStageTokens pR).1 = pT
  have hTp : pT.projects = pR.projects.map (fun p => (ensureTokensOne p).1) := by
    rw [← hT, stageTokens_fst]
  generalize hG : (ensureStageGlobal pT).1 = pG
  have hGp : pG.projects = pT.projects := by
    rw [← hG, stageGlobal_fst]
  generalize hA : (ensureStageActive pG).1 = pA
  have hAp : pA.projects = pG.projects := by
    rw [← hA]
    exact (stageActive_untouched pG).2.2.2.2.2.1
  have hEp : (ensureStageEnabled pA).1.projects = pA.projects := by
    rw [stageEnabled_fst]
  rw [hEp, hAp, hGp, hTp, hRp, List.map_map]
  rfl

/-- The self-healed peer has a non-empty active id whenever the original
projects all carry non-empty ids. -/
theorem ensureDefaultProject_active_ne (peer : PeerState) (dn now : String)
    (hids : ∀ p ∈ peer.projects, p.id ≠ "") :
    (ensureDefaultProject peer dn now).1.activeProjectId ≠ "" := by
  by_cases hp : peer.projects = []
  · rw [ensureDefaultProject_empty peer dn now hp]
    exact defaultProjectId_ne_empty dn
  · rw [ensureDefaultProject_decomp]
    generalize hR : (ensureStageRename dn peer).1 = pR
    have hRp : pR.projects = peer.projects.map (fun p => (renameLegacyOne dn p).1) := by
      rw [← hR, stageRename_fst]
    have hRa : pR.activeProjectId = peer.activeProjectId := by
      rw [← hR, stageRename_fst]
    have hC : ensureStageCreate dn now pR = (pR, false) :=
      stageCreate_of_ne_nil (by simp [hRp, hp])
    rw [hC]
    generalize hT : (ensureStageTokens pR).1 = pT
    have hTp : pT.projects = pR.projects.map (fun p => (ensureTokensOne p).1) := by
      rw [← hT, stageTokens_fst]
    have hTa : pT.activeProjectId = pR.activeProjectId := by
      rw [← hT, stageTokens_fst]
    generalize hG : (ensureStageGlobal pT).1 = pG
    have hGp : pG.projects = pT.projects := by
      rw [← hG, stageGlobal_fst]
    have hGa : pG.activeProjectId = pT.activeProjectId := by
      rw [← hG, stageGlobal_fst]
    have hEa : ∀ q : PeerState, (ensureStageEnabled q).1.activeProjectId = q.activeProjectId := by
      intro q
      rw [stageEnabled_fst]
    rw [hEa]
    apply stageActive_active_ne
    by_cases ha : peer.activeProjectId = ""
    · refine Or.inr ⟨?_, ?_⟩
      · rw [hGp, hTp, hRp]
        simp [hp]
      · intro q hq
        rw [hGp, hTp, hRp, List.map_map] at hq
        obtain ⟨q0, hq0, hfq⟩ := List.mem_map.mp hq
        have : q.id = q0.id := by
          rw [← hfq]
          simp [Function.comp, ensureTokensOne_id, renameLegacyOne_id]
        rw [this]
        exact hids q0 hq0
    · exact Or.inl (by rw [hGa, hTa, hRa]; exact ha)

/-- The self-healed peer always has initialized global tokens and a
boolean enabled flag. -/
theorem ensureDefaultProject_opts_isSome (peer : PeerState) (dn now : String) :
    (ensureDefaultProject peer dn now).1.globalTokens.isSome ∧
    (ensureDefaultProject peer dn now).1.projectsEnabled.isSome := by
  rw [ensureDefaultProject_decomp]
  generalize hG : (ensureStageGlobal (ensureStageTokens
    (ensureStageCreate dn now (ensureStageRename dn peer).1).1).1).1 = pG
  have hGg : pG.globalTokens.isSome := by
    rw [← hG, stageGlobal_fst]
    simp
  generalize hA : (ensureStageActive pG).1 = pA
  have hAg : pA.globalTokens = pG.globalTokens := by
    rw [← hA]
    exact (stageActive_untouched pG).2.2.2.1
  constructor
  · have : (ensureStageEnabled pA).1.globalTokens = pA.globalTokens := by
      rw [stageEnabled_fst]
    rw [this, hAg]
    exact hGg
  · rw [stageEnabled_fst]
    simp

/-- Every project of the self-healed peer passes no legacy rename and has
initialized tokens; the collection is non-empty. -/
theorem ensureDefaultProject_projects_post (peer : PeerState) (dn now : String) :
    (∀ p ∈ (ensureDefaultProject peer dn now).1.projects, renCond dn p = false) ∧
    (∀ p ∈ (ensureDefaultProject peer dn now).1.projects, p.tokens.isSome) ∧
    (ensureDefaultProject peer dn now).1.projects ≠ [] := by
  by_cases hp : peer.projects = []
  · rw [ensureDefaultProject_empty peer dn now hp]
    refine ⟨?_, ?_, by simp⟩ <;> intro p hpm <;> simp at hpm <;> subst hpm
    · exact renCond_of_name_eq rfl
    · simp [mkDefaultProject]
  · rw [ensureDefaultProject_projects peer dn now hp]
    refine ⟨?_, ?_, by simp [hp]⟩ <;> intro p hpm <;>
      obtain ⟨q, hq, hfq⟩ := List.mem_map.mp hpm <;> subst hfq
    · rw [renCond_ensureTokensOne]
      exact renCond_renameLegacyOne dn q
    · exact ensureTokensOne_isSome _

/-- Idempotence of the self-healer on peers whose projects have non-empty
ids: the second run reports no change. -/
theorem ensureDefaultProject_idem (peer : PeerState) (dn now now2 : String)
    (hids : ∀ p ∈ peer.projects, p.id ≠ "") :
    ensureDefaultProject (ensureDefaultProject peer dn now).1 dn now2 =
      ((ensureDefaultProject peer dn now).1, false) := by
  obtain ⟨hren, htok, hne⟩ := ensureDefaultProject_projects_post peer dn now
  obtain ⟨hg, he⟩ := ensureDefaultProject_opts_isSome peer dn now
  exact ensureDefaultProject_self _ dn now2 hren hne htok hg
    (ensureDefaultProject_active_ne peer dn now hids) he

/-! ## Wipe machine lemmas -/

theorem ensure_pw (p : PeerState) (dn now : String) :
    (ensureDefaultProject p dn now).1.pendingWipe = p.pendingWipe :=
  (ensureDefaultProject_untouched p dn now).1

theorem ensure_enabled_of_some {p : PeerState} {b : Bool} (dn now : String)
    (h : p.projectsEnabled = some b) :
    (ensureDefaultProject p dn now).1.projectsEnabled = some b := by
  rw [ensureDefaultProject_decomp]
  generalize hG : (ensureStageActive (ensureStageGlobal (ensureStageTokens
    (ensureStageCreate dn now (ensureStageRename dn p).1).1).1).1).1 = pA
  have hAe : pA.projectsEnabled = p.projectsEnabled := by
    rw [← hG]
    rw [(stageActive_untouched _).2.2.2.2.1, stageGlobal_fst, stageTokens_fst,
      (stageCreate_untouched dn now _).2.2.2.2, stageRename_fst]
  rw [stageEnabled_fst, hAe, h]
  rfl

/-- The peer written back by a wipe-all, in closed form. -/
theorem freshWipedPeer_spec (dn now : String) (mid : Option Nat) :
    freshWipedPeer dn now mid =
      { projectsEnabled := some false, activeProjectId := defaultProjectId dn,
        previousProjectId := some "", effectiveFromMessageId := mid,
        lastProjectId := some (defaultProjectId dn), pendingReset := some false,
        projects := [mkDefaultProject dn now], globalTokens := some [],
        pendingWipe := none } := by
  unfold freshWipedPeer
  rw [ensureDefaultProject_empty _ _ _ rfl]
  rfl

theorem confirmAll_no_pending {peer : PeerState} (h : peer.pendingWipe = none)
    (argN : String) (t : Nat) (dn now : String) (mid : Option Nat) :
    (confirmAll peer argN t dn now mid).2.1 = false := by
  simp [confirmAll, h]

theorem confirmProject_no_pending {peer : PeerState} (h : peer.pendingWipe = none)
    (argN argPid : String) (t : Nat) (dn now : String) (mid : Option Nat) :
    (confirmProject peer argN argPid t dn now mid).2.1 = false := by
  simp [confirmProject, h]

theorem confirmAll_pendingWipe_none {peer : PeerState} {pw : PendingWipe}
    (h : peer.pendingWipe = some pw)
    (argN : String) (t : Nat) (dn now : String) (mid : Option Nat) :
    (confirmAll peer argN t dn now mid).1.pendingWipe = none := by
  simp only [confirmAll, h]
  by_cases hexp : t - pw.createdAtMs > wipeConfirmTtlMs
  · rw [if_pos hexp]
  · rw [if_neg hexp]
    by_cases hmis : argN = "" ∨ argN ≠ pw.nonce ∨ pw.kind ≠ WipeKind.all
    · rw [if_pos hmis]
    · rw [if_neg hmis, freshWipedPeer_spec]

/-- Refusals of the per-project wipe keep the stored peer; a success stores
a peer without pending wipe.  In all cases, when the input peer has no
pending wipe, neither has the stored result. -/
theorem wipeOne_pendingWipe_none {S : PeerState} (hS : S.pendingWipe = none)
    (pid dn now : String) (mid : Option Nat) :
    ∀ P, (backupAndWipeOneProjectState (some S) pid dn now mid).1 = some P →
      P.pendingWipe = none := by
  intro P hP
  unfold backupAndWipeOneProjectState at hP
  by_cases hdef : pid = defaultProjectId dn
  · simp only [hdef, if_pos rfl] at hP
    rw [← Option.some.injEq _ _ |>.mp hP]
    exact hS
  · simp only [if_neg hdef] at hP
    generalize hfind : (ensureDefaultProject { S with pendingWipe := none } dn now).1.projects.find?
      (fun p => p.id = pid && nonArchived p) = fr at hP
    cases fr with
    | none =>
      simp only at hP
      rw [← Option.some.injEq _ _ |>.mp hP]
      exact hS
    | some target =>
      simp only at hP
      rw [← Option.some.injEq _ _ |>.mp hP]
      rw [ensure_pw]
      (repeat' split) <;> rw [ensure_pw]

/-- A valid non-default target makes the per-project wipe succeed. -/
theorem wipeOne_ok (S : PeerState) (pid dn now : String) (mid : Option Nat)
    (t0 : Project) (hmem : t0 ∈ S.projects) (hid : t0.id = pid)
    (harch : nonArchived t0 = true) (hdef : pid ≠ defaultProjectId dn) :
    (backupAndWipeOneProjectState (some S) pid dn now mid).2.1 = true := by
  have hp0 : ({ S with pendingWipe := none } : PeerState).projects = S.projects := rfl
  have hproj := ensureDefaultProject_projects { S with pendingWipe := none } dn now
    (by rw [hp0]; exact List.ne_nil_of_mem hmem)
  have himg : (fun p => (ensureTokensOne (renameLegacyOne dn p).1).1) t0 ∈
      (ensureDefaultProject { S with pendingWipe := none } dn now).1.projects := by
    rw [hproj, hp0]
    exact List.mem_map_of_mem _ hmem
  have harch2 : nonArchived ((fun p => (ensureTokensOne (renameLegacyOne dn p).1).1) t0) =
      nonArchived t0 := by
    unfold nonArchived
    rw [ensureTokensOne_archived, renameLegacyOne_archived]
  have hq : (fun p => decide (p.id = pid) && nonArchived p)
      ((fun p => (ensureTokensOne (renameLegacyOne dn p).1).1) t0) = true := by
    simp only [harch2, harch, Bool.and_true]
    simp [ensureTokensOne_id, renameLegacyOne_id, hid]
  obtain ⟨b, hb⟩ := find_some_of_mem
    (fun p => decide (p.id = pid) && nonArchived p) _ _ himg hq
  unfold backupAndWipeOneProjectState
  simp only [if_neg hdef, hb]

theorem ensure_global_of_some {p : PeerState} (dn now : String)
    (h : p.globalTokens.isSome) :
    (ensureDefaultProject p dn now).1.globalTokens = p.globalTokens := by
  obtain ⟨g, hg⟩ := Option.isSome_iff_exists.mp h
  rw [ensureDefaultProject_decomp]
  generalize hT : (ensureStageTokens (ensureStageCreate dn now
    (ensureStageRename dn p).1).1).1 = pT
  have hTg : pT.globalTokens = p.globalTokens := by
    rw [← hT, stageTokens_fst, (stageCreate_untouched dn now _).2.2.2.1, stageRename_fst]
  generalize hG : (ensureStageGlobal pT).1 = pG
  have hGg : pG.globalTokens = p.globalTokens := by
    rw [← hG, stageGlobal_fst]
    simp only [hTg, hg, Option.getD_some]
  generalize hA : (ensureStageActive pG).1 = pA
  have hAg : pA.globalTokens = p.globalTokens := by
    rw [← hA, (stageActive_untouched pG).2.2.2.1, hGg]
  rw [stageEnabled_fst]
  exact hAg

/-- When the collection is non-empty and the active id is set, the
self-healer preserves the active, last-used and pending-reset fields. -/
theorem ensure_active_last_pr (p : PeerState) (dn now : String)
    (hne : p.projects ≠ []) (ha : p.activeProjectId ≠ "") :
    (ensureDefaultProject p dn now).1.activeProjectId = p.activeProjectId ∧
    (ensureDefaultProject p dn now).1.lastProjectId = p.lastProjectId ∧
    (ensureDefaultProject p dn now).1.pendingReset = p.pendingReset := by
  rw [ensureDefaultProject_decomp]
  generalize hR : (ensureStageRename dn p).1 = pR
  have hRf : pR.activeProjectId = p.activeProjectId ∧ pR.lastProjectId = p.lastProjectId ∧
      pR.pendingReset = p.pendingReset ∧ pR.projects = p.projects.map (fun q => (renameLegacyOne dn q).1) := by
    rw [← hR, stageRename_fst]
    exact ⟨rfl, rfl, rfl, rfl⟩
  have hC : ensureStageCreate dn now pR = (pR, false) :=
    stageCreate_of_ne_nil (by rw [hRf.2.2.2]; simp [hne])
  rw [hC]
  generalize hT : (ensureStageTokens pR).1 = pT
  have hTf : pT.activeProjectId = pR.activeProjectId ∧ pT.lastProjectId = pR.lastProjectId ∧
      pT.pendingReset = pR.pendingReset := by
    rw [← hT, stageTokens_fst]
    exact ⟨rfl, rfl, rfl⟩
  generalize hG : (ensureStageGlobal pT).1 = pG
  have hGf : pG.activeProjectId = pT.activeProjectId ∧ pG.lastProjectId = pT.lastProjectId ∧
      pG.pendingReset = pT.pendingReset := by
    rw [← hG, stageGlobal_fst]
    exact ⟨rfl, rfl, rfl⟩
  have hA : ensureStageActive pG = (pG, false) :=
    stageActive_self (by rw [hGf.1, hTf.1, hRf.1]; exact ha)
  rw [hA]
  rw [stageEnabled_fst]
  exact ⟨by rw [hGf.1, hTf.1, hRf.1], by rw [hGf.2.1, hTf.2.1, hRf.2.1],
    by rw [hGf.2.2, hTf.2.2, hRf.2.2.1]⟩

/-- Healing is the identity on a list of already-healed projects. -/
theorem map_heal_id {dn : String} {l : List Project}
    (h1 : ∀ p ∈ l, renCond dn p = false) (h2 : ∀ p ∈ l, p.tokens.isSome) :
    l.map (fun p => (ensureTokensOne (renameLegacyOne dn p).1).1) = l := by
  induction l with
  | nil => rfl
  | cons a l ih =>
    have ha := renameLegacyOne_of_cond_false (h1 a (by simp))
    have ht := ensureTokensOne_of_isSome (h2 a (by simp))
    have hrest := ih (fun p hp => h1 p (by simp [hp])) (fun p hp => h2 p (by simp [hp]))
    simp [ha, ht, hrest]

theorem confirmProject_pendingWipe_none {peer : PeerState} {pw : PendingWipe}
    (h : peer.pendingWipe = some pw)
    (argN argPid : String) (t : Nat) (dn now : String) (mid : Option Nat) :
    (confirmProject peer argN argPid t dn now mid).1.pendingWipe = none := by
  simp only [confirmProject, h]
  by_cases hexp : t - pw.createdAtMs > wipeConfirmTtlMs
  · rw [if_pos hexp]
  · rw [if_neg hexp]
    by_cases hmis : argN = "" ∨ argN ≠ pw.nonce ∨ pw.kind ≠ WipeKind.project ∨
      (pw.projectId = none ∨ pw.projectId = some "") ∨ pw.projectId ≠ some argPid
    · rw [if_pos hmis]
    · rw [if_neg hmis]
      cases hr : (backupAndWipeOneProjectState
          (some { peer with pendingWipe := none }) argPid dn now mid).1 with
      | none => simp [hr]
      | some P =>
        simp only [hr, Option.getD_some]
        exact wipeOne_pendingWipe_none rfl argPid dn now mid P hr

/-- Healing a peer already re-pointed at the default project keeps the
re-pointed fields. -/
theorem ensure_repoint_fields (p : PeerState) (dn now : String)
    (hne : p.projects ≠ []) (hact2 : p.activeProjectId = defaultProjectId dn)
    (hlast : p.lastProjectId = some (defaultProjectId dn))
    (hprev : p.previousProjectId = none) (hpr : p.pendingReset = some true) :
    (ensureDefaultProject p dn now).1.activeProjectId = defaultProjectId dn ∧
    (ensureDefaultProject p dn now).1.lastProjectId = some (defaultProjectId dn) ∧
    (ensureDefaultProject p dn now).1.previousProjectId = none ∧
    (ensureDefaultProject p dn now).1.pendingReset = some true := by
  have h := ensure_active_last_pr p dn now hne
    (by rw [hact2]; exact defaultProjectId_ne_empty dn)
  exact ⟨by rw [h.1, hact2], by rw [h.2.1, hlast],
    by rw [(ensureDefaultProject_untouched p dn now).2.2, hprev], by rw [h.2.2, hpr]⟩

/-- Full characterization of a successful per-project wipe on a healed
peer whose collection contains the default project. -/
theorem wipeOne_success_spec (S : PeerState) (tid dn now : String) (mid : Option Nat)
    (hren : ∀ p ∈ S.projects, renCond dn p = false)
    (htok : ∀ p ∈ S.projects, p.tokens.isSome)
    (hglob : S.globalTokens.isSome)
    (hact : S.activeProjectId ≠ "")
    (hen : S.projectsEnabled.isSome)
    (d : Project) (hdmem : d ∈ S.projects) (hdid : d.id = defaultProjectId dn)
    (t0 : Project) (hmem : t0 ∈ S.projects) (hid : t0.id = tid)
    (harch : nonArchived t0 = true) (htidne : tid ≠ defaultProjectId dn) :
    ∃ P, (backupAndWipeOneProjectState (some S) tid dn now mid).1 = some P ∧
      (backupAndWipeOneProjectState (some S) tid dn now mid).2.1 = true ∧
      P.projects = S.projects.filter (fun p => p.id ≠ tid) ∧
      P.globalTokens = S.globalTokens ∧
      P.projectsEnabled = S.projectsEnabled ∧
      ((S.activeProjectId = tid ∨ S.previousProjectId = some tid ∨ S.lastProjectId = some tid) →
        P.activeProjectId = defaultProjectId dn ∧
        P.lastProjectId = some (defaultProjectId dn) ∧
        P.previousProjectId = none ∧
        P.pendingReset = some true) := by
  obtain ⟨e, he⟩ := Option.isSome_iff_exists.mp hen
  have hself0 : ensureDefaultProject { S with pendingWipe := none } dn now =
      ({ S with pendingWipe := none }, false) :=
    ensureDefaultProject_self _ dn now hren (List.ne_nil_of_mem hmem) htok hglob hact hen
  have hq : (fun p => decide (p.id = tid) && nonArchived p) t0 = true := by
    simp [hid, harch]
  obtain ⟨b, hb⟩ := find_some_of_mem
    (fun p => decide (p.id = tid) && nonArchived p) S.projects t0 hmem hq
  -- facts about the filtered collection
  have hfilt_ren : ∀ p ∈ S.projects.filter (fun p => p.id ≠ tid), renCond dn p = false :=
    fun p hp => hren p (List.mem_of_mem_filter hp)
  have hfilt_tok : ∀ p ∈ S.projects.filter (fun p => p.id ≠ tid), p.tokens.isSome :=
    fun p hp => htok p (List.mem_of_mem_filter hp)
  have hdf : d ∈ S.projects.filter (fun p => p.id ≠ tid) := by
    refine List.mem_filter.mpr ⟨hdmem, ?_⟩
    simp [hdid, htidne]
    intro hcontra
    exact htidne (by rw [← hcontra])
  have hfilt_ne : S.projects.filter (fun p => p.id ≠ tid) ≠ [] :=
    List.ne_nil_of_mem hdf
  unfold backupAndWipeOneProjectState
  simp only [if_neg htidne, hself0, hb]
  by_cases hrp : S.activeProjectId = tid ∨ S.previousProjectId = some tid ∨
    S.lastProjectId = some tid
  · simp only [if_pos hrp]
    cases mid with
    | none =>
      simp only [he]
      refine ⟨_, rfl, trivial, ?_, ?_, ?_, ?_⟩
      · rw [ensureDefaultProject_projects _ dn now hfilt_ne]
        exact map_heal_id hfilt_ren hfilt_tok
      · exact ensure_global_of_some dn now hglob
      · exact ensure_enabled_of_some dn now rfl
      · exact fun _ => ensure_repoint_fields _ dn now hfilt_ne rfl rfl rfl rfl
    | some m =>
      simp only [he]
      refine ⟨_, rfl, trivial, ?_, ?_, ?_, ?_⟩
      · rw [ensureDefaultProject_projects _ dn now hfilt_ne]
        exact map_heal_id hfilt_ren hfilt_tok
      · exact ensure_global_of_some dn now hglob
      · exact ensure_enabled_of_some dn now rfl
      · exact fun _ => ensure_repoint_fields _ dn now hfilt_ne rfl rfl rfl rfl
  · simp only [if_neg hrp]
    cases mid with
    | none =>
      simp only [he]
      refine ⟨_, rfl, trivial, ?_, ?_, ?_, fun hc => absurd hc hrp⟩
      · rw [ensureDefaultProject_projects _ dn now hfilt_ne]
        exact map_heal_id hfilt_ren hfilt_tok
      · exact ensure_global_of_some dn now hglob
      · exact ensure_enabled_of_some dn now rfl
    | some m =>
      simp only [he]
      refine ⟨_, rfl, trivial, ?_, ?_, ?_, fun hc => absurd hc hrp⟩
      · rw [ensureDefaultProject_projects _ dn now hfilt_ne]
        exact map_heal_id hfilt_ren hfilt_tok
      · exact ensure_global_of_some dn now hglob
      · exact ensure_enabled_of_some dn now rfl

/-! ## String lemmas for the peer-key agreement claim -/

theorem string_eq_of_data {a b : String} (h : a.data = b.data) : a = b := by
  cases a
  cases b
  simp only at h
  rw [h]

theorem string_mk_data (s : String) : (⟨s.data⟩ : String) = s := by
  cases s
  rfl

theorem lowerChars_append (a b : List Char) :
    lowerChars (a ++ b) = lowerChars a ++ lowerChars b :=
  List.map_append _ a b

theorem isPrefixChars_self_append (xs zs : List Char) :
    isPrefixChars xs (xs ++ zs) = true := by
  induction xs with
  | nil => rfl
  | cons c cs ih => simp [isPrefixChars, ih]

theorem isInfixChars_of_prefix {pat l : List Char}
    (h : isPrefixChars pat l = true) : isInfixChars pat l = true := by
  cases l with
  | nil => exact h
  | cons c cs => simp [isInfixChars, h]

theorem isInfixChars_middle (pat xs ys : List Char) :
    isInfixChars pat (xs ++ (pat ++ ys)) = true := by
  induction xs with
  | nil =>
    rw [List.nil_append]
    exact isInfixChars_of_prefix (isPrefixChars_self_append pat ys)
  | cons c cs ih =>
    rw [List.cons_append]
    simp [isInfixChars, ih]

theorem takeWhile_append_of_all {p : Char → Bool} (xs : List Char) {y : Char}
    (ys : List Char) (hxs : ∀ c ∈ xs, p c = true) (hy : p y = false) :
    (xs ++ y :: ys).takeWhile p = xs := by
  induction xs with
  | nil => simp [List.takeWhile_cons, hy]
  | cons c cs ih =>
    have hc := hxs c (by simp)
    simp [List.takeWhile_cons, hc, ih (fun d hd => hxs d (by simp [hd]))]

/-- On a session key ending in `:telegram:dm:<s>` with `s` non-empty,
colon-free and lower-case invariant, the extraction recovers `s`. -/
theorem extract_suffix (pre s : String)
    (hne : s.data ≠ []) (hnc : ∀ c ∈ s.data, c ≠ ':')
    (hlow : lowerChars s.data = s.data) :
    extractTelegramDmPeerIdFromSessionKey (lowerStr (pre ++ ":telegram:dm:" ++ s)) =
      some s := by
  have hM : lowerChars (":telegram:dm:".data) = ":telegram:dm:".data := by decide
  have hraw : (pre ++ ":telegram:dm:" ++ s).data =
      (pre.data ++ ":telegram:dm:".data) ++ s.data := by
    rw [data_append, data_append]
  have hskdata : (lowerStr (pre ++ ":telegram:dm:" ++ s)).data =
      (lowerChars pre.data ++ ":telegram:dm:".data) ++ s.data := by
    show lowerChars (pre ++ ":telegram:dm:" ++ s).data = _
    rw [hraw, lowerChars_append, lowerChars_append, hM, hlow]
  have hl : lowerChars (lowerStr (pre ++ ":telegram:dm:" ++ s)).data =
      (lowerChars (lowerChars pre.data) ++ ":telegram:dm:".data) ++ s.data := by
    rw [hskdata, lowerChars_append, lowerChars_append, hM, hlow]
  unfold extractTelegramDmPeerIdFromSessionKey
  simp only [hl]
  have hMrev : (":telegram:dm:".data).reverse = ':' :: ("md:margelet:".data) := by decide
  have hrev : (((lowerChars (lowerChars pre.data) ++ ":telegram:dm:".data) ++ s.data).reverse)
      = s.data.reverse ++ ':' ::
        ("md:margelet:".data ++ (lowerChars (lowerChars pre.data)).reverse) := by
    rw [List.reverse_append, List.reverse_append, hMrev]
    simp
  rw [hrev]
  have htake : (s.data.reverse ++ ':' ::
      ("md:margelet:".data ++ (lowerChars (lowerChars pre.data)).reverse)).takeWhile
        (fun c => c ≠ ':') = s.data.reverse := by
    refine takeWhile_append_of_all _ _ (fun c hc => ?_) (by decide)
    have := hnc c (List.mem_reverse.mp hc)
    simp [this]
  rw [htake, List.reverse_reverse]
  have hsuf : isSuffixChars (":telegram:dm:".data ++ s.data)
      ((lowerChars (lowerChars pre.data) ++ ":telegram:dm:".data) ++ s.data) = true := by
    unfold isSuffixChars
    have hassoc : (lowerChars (lowerChars pre.data) ++ ":telegram:dm:".data) ++ s.data =
        lowerChars (lowerChars pre.data) ++ (":telegram:dm:".data ++ s.data) := by
      simp
    rw [hassoc]
    simp only [List.reverse_append]
    exact isPrefixChars_self_append _ _
  rw [if_pos ⟨hne, hsuf⟩]

theorem map_id_of_heal (dn : String) (l : List Project) :
    l.map (fun p => ((ensureTokensOne (renameLegacyOne dn p).1).1).id) =
      l.map (fun p => p.id) := by
  induction l with
  | nil => rfl
  | cons a l ih => simp [ensureTokensOne_id, renameLegacyOne_id, ih]

/-! ## Example states used by witnesses and counterexamples -/

def exGeneral : Project :=
  { id := "proj-general", name := "General", archived := none,
    createdAt := "2026-01-01", lastUsedAt := some "2026-01-01",
    note := none, tokens := some [] }

def exWork : Project :=
  { id := "proj-work", name := "Work", archived := none,
    createdAt := "2026-01-02", lastUsedAt := some "2026-01-02",
    note := none, tokens := some ["tok1"] }

def exPeer : PeerState :=
  { projectsEnabled := some true, activeProjectId := "proj-general",
    previousProjectId := none, effectiveFromMessageId := some 3,
    lastProjectId := some "proj-general", pendingReset := some false,
    projects := [exGeneral, exWork], globalTokens := some [], pendingWipe := none }

/-! ## Claims -/

/-- C9: for every peer state whose projects all carry non-empty ids (as
every project the program creates does), calling ensureDefaultProject a
second time with the same arguments reports changed = false. -/
theorem claim_C9_ensure_idem (peer : PeerState) (dn now : String)
    (hids : ∀ p ∈ peer.projects, p.id ≠ "") :
    (ensureDefaultProject (ensureDefaultProject peer dn now).1 dn now).2 = false := by
  rw [ensureDefaultProject_idem peer dn now now hids]

theorem claim_C9_ensure_idem_witness :
    (∀ p ∈ exPeer.projects, p.id ≠ "") ∧
    (ensureDefaultProject (ensureDefaultProject exPeer "General" "t").1 "General" "t").2
      = false :=
  ⟨by decide, claim_C9_ensure_idem exPeer "General" "t" (by decide)⟩

def emptyIdPeer : PeerState :=
  { projectsEnabled := some false, activeProjectId := "",
    previousProjectId := none, effectiveFromMessageId := none,
    lastProjectId := none, pendingReset := none,
    projects := [{ id := "", name := "x", archived := none, createdAt := "t",
                   lastUsedAt := none, note := none, tokens := some [] }],
    globalTokens := some [], pendingWipe := none }

/-- C9 counterexample: on a stored peer containing a project with an empty
id, the second ensureDefaultProject call still reports changed = true, so
the unconditional idempotence claim fails. -/
theorem claim_C9_ensure_idem_cex :
    (ensureDefaultProject (ensureDefaultProject emptyIdPeer "General" "t").1 "General" "t").2
      = true := by
  decide

/-- C3 (amended): after ensureDefaultProject the collection is always
non-empty, and when the peer started with an empty collection the active
id refers to an existing, non-archived project.  (For peers with a
non-empty collection, a pre-existing dangling or archived active id is
left unchanged - see the counterexample.) -/
theorem claim_C3_ensure_default (peer peerE : PeerState) (dn now dn2 now2 : String)
    (hE : peerE.projects = []) :
    (ensureDefaultProject peer dn now).1.projects ≠ [] ∧
    ∃ p ∈ (ensureDefaultProject peerE dn2 now2).1.projects,
      (ensureDefaultProject peerE dn2 now2).1.activeProjectId = p.id ∧
      nonArchived p = true := by
  constructor
  · exact (ensureDefaultProject_projects_post peer dn now).2.2
  · rw [ensureDefaultProject_empty peerE dn2 now2 hE]
    exact ⟨mkDefaultProject dn2 now2, by simp, rfl, rfl⟩

theorem claim_C3_ensure_default_witness :
    (ensureDefaultProject exPeer "General" "t").1.projects ≠ [] ∧
    ∃ p ∈ (ensureDefaultProject freshCommandPeer "General" "t").1.projects,
      (ensureDefaultProject freshCommandPeer "General" "t").1.activeProjectId = p.id ∧
      nonArchived p = true :=
  claim_C3_ensure_default exPeer freshCommandPeer "General" "t" "General" "t" rfl

def danglingPeer : PeerState :=
  { projectsEnabled := some false, activeProjectId := "bogus",
    previousProjectId := none, effectiveFromMessageId := none,
    lastProjectId := none, pendingReset := none, projects := [exGeneral],
    globalTokens := some [], pendingWipe := none }

/-- C3 counterexample: a stored peer with a non-empty collection and a
dangling active id keeps that dangling id after ensureDefaultProject, so
activeProjectId does not resolve to an existing project. -/
theorem claim_C3_ensure_default_cex :
    (ensureDefaultProject danglingPeer "General" "t").1.activeProjectId = "bogus" ∧
    ∀ p ∈ (ensureDefaultProject danglingPeer "General" "t").1.projects,
      p.id ≠ "bogus" := by
  decide

/-- C4 (amended): arming or confirming a per-project wipe whose target is
the default project id is always refused with an explanatory error and
never removes any project; the stored collection can change only through
the defensive ensureDefaultProject self-healing performed on the arm path
(adding the default project to an empty collection, or renaming a legacy
project), and the confirm-path refusal leaves the stored peer entirely
unchanged. -/
theorem claim_C4_default_protected (S : PeerState) (dn now nonce stamp parentDir : String)
    (nowMs : Nat) (mid : Option Nat) :
    handleResetRemove (some S) (defaultProjectId dn) nonce nowMs stamp parentDir dn now =
      (some (ensureDefaultProject S dn now).1,
       "Refused: default project cannot be wiped.") ∧
    (ensureDefaultProject S dn now).1.projects.map Project.id =
      (if S.projects.isEmpty then [defaultProjectId dn]
       else S.projects.map Project.id) ∧
    backupAndWipeOneProjectState (some S) (defaultProjectId dn) dn now mid =
      (some S, false, "Refused: default project cannot be wiped.") := by
  refine ⟨?_, ?_, ?_⟩
  · simp only [handleResetRemove]
    rw [if_neg (defaultProjectId_ne_empty dn)]
    simp
  · by_cases hp : S.projects = []
    · rw [ensureDefaultProject_empty _ _ _ hp]
      simp [hp, mkDefaultProject]
    · have hie : S.projects.isEmpty = false := by
        cases hq : S.projects
        · exact absurd hq hp
        · rfl
      rw [ensureDefaultProject_projects _ _ _ hp, hie, List.map_map]
      simp only [Bool.false_eq_true, if_false]
      exact map_id_of_heal dn S.projects
  · simp only [backupAndWipeOneProjectState]
    simp

/-- C4 counterexample: a refusal to arm a wipe of the default project can
still mutate the stored peer (the arm path first persists the
ensureDefaultProject self-healing, growing an empty collection), so the
claim that such refusals never mutate the project collection fails. -/
theorem claim_C4_default_protected_cex :
    (handleResetRemove (some freshWipeBranchPeer) (defaultProjectId "General")
        "n" 0 "s" "par" "General" "t").2 =
      "Refused: default project cannot be wiped." ∧
    ((handleResetRemove (some freshWipeBranchPeer) (defaultProjectId "General")
        "n" 0 "s" "par" "General" "t").1.getD freshWipeBranchPeer).projects ≠
      freshWipeBranchPeer.projects := by
  decide

/-- C6: a confirmed wipe-all leaves the peer with projects disabled,
exactly one project named the configured default carrying an empty token
list, an empty global token set, and no pending wipe. -/
theorem claim_C6_wipe_all_reset (peer : PeerState) (pw : PendingWipe)
    (argN : String) (t : Nat) (dn now : String) (mid : Option Nat)
    (hpend : peer.pendingWipe = some pw) (hkind : pw.kind = WipeKind.all)
    (hn : argN = pw.nonce) (hne2 : argN ≠ "")
    (ht : t - pw.createdAtMs ≤ wipeConfirmTtlMs) :
    (confirmAll peer argN t dn now mid).2.1 = true ∧
    (confirmAll peer argN t dn now mid).1.projectsEnabled = some false ∧
    (confirmAll peer argN t dn now mid).1.projects.map Project.name = [dn] ∧
    (confirmAll peer argN t dn now mid).1.projects.map Project.tokens = [some []] ∧
    (confirmAll peer argN t dn now mid).1.globalTokens = some [] ∧
    (confirmAll peer argN t dn now mid).1.pendingWipe = none := by
  have hexp : ¬ (t - pw.createdAtMs > wipeConfirmTtlMs) := by omega
  have hmis : ¬ (argN = "" ∨ argN ≠ pw.nonce ∨ pw.kind ≠ WipeKind.all) := by
    push_neg
    exact ⟨hne2, hn, hkind⟩
  simp only [confirmAll, hpend, if_neg hexp, if_neg hmis]
  rw [freshWipedPeer_spec]
  simp [mkDefaultProject]

def exPwAll : PendingWipe :=
  { nonce := "ab12cd34", createdAtMs := 1000, kind := WipeKind.all,
    projectId := none, stamp := "20260101-120000",
    backupDir := "par/backup_projects_ux_20260101-120000" }

def exPeerAll : PeerState := { exPeer with pendingWipe := some exPwAll }

theorem claim_C6_wipe_all_reset_witness :
    exPeerAll.pendingWipe = some exPwAll ∧ exPwAll.kind = WipeKind.all ∧
    "ab12cd34" = exPwAll.nonce ∧ ("ab12cd34" : String) ≠ "" ∧
    2000 - exPwAll.createdAtMs ≤ wipeConfirmTtlMs ∧
    ((confirmAll exPeerAll "ab12cd34" 2000 "General" "t" (some 9)).2.1 = true ∧
     (confirmAll exPeerAll "ab12cd34" 2000 "General" "t" (some 9)).1.projectsEnabled = some false ∧
     (confirmAll exPeerAll "ab12cd34" 2000 "General" "t" (some 9)).1.projects.map Project.name = ["General"] ∧
     (confirmAll exPeerAll "ab12cd34" 2000 "General" "t" (some 9)).1.projects.map Project.tokens = [some []] ∧
     (confirmAll exPeerAll "ab12cd34" 2000 "General" "t" (some 9)).1.globalTokens = some [] ∧
     (confirmAll exPeerAll "ab12cd34" 2000 "General" "t" (some 9)).1.pendingWipe = none) :=
  ⟨rfl, rfl, rfl, by decide, by decide,
   claim_C6_wipe_all_reset exPeerAll exPwAll "ab12cd34" 2000 "General" "t" (some 9)
     rfl rfl rfl (by decide) (by decide)⟩

/-- C10: any `/projects wipe <token>` invocation whose first token after
`wipe` is none of cancel, confirm or project (case-insensitively) arms a
brand-new wipe-all pending operation carrying the freshly generated
nonce, stamp and backup directory, overwriting any previously armed
pending wipe of either kind, and persists it. -/
theorem claim_C10_wipe_arm_fallthrough (stored : Option PeerState) (tok : String)
    (rest : List String) (nowMs : Nat) (nonce stamp parentDir dn now : String)
    (mid : Option Nat)
    (h1 : lowerStr tok ≠ "cancel") (h2 : lowerStr tok ≠ "confirm")
    (h3 : lowerStr tok ≠ "project") :
    handleWipe stored ("wipe" :: tok :: rest) nowMs nonce stamp parentDir dn now mid =
      (some { stored.getD freshWipeBranchPeer with
          pendingWipe := some
            { nonce := nonce, createdAtMs := nowMs, kind := WipeKind.all,
              projectId := none, stamp := stamp,
              backupDir := parentDir ++ "/backup_projects_ux_" ++ stamp } },
       false, "This will WIPE ALL Projects-UX state for this DM (recovery).") := by
  simp only [handleWipe, List.get?, Option.getD_some]
  rw [if_neg h1, if_neg h2, if_neg (fun hc => h3 hc.1)]

def exPwProj : PendingWipe :=
  { nonce := "ff00ff00", createdAtMs := 500, kind := WipeKind.project,
    projectId := some "proj-work", stamp := "20260101-110000",
    backupDir := "par/backup_projects_ux_20260101-110000" }

def exPeerProj : PeerState := { exPeer with pendingWipe := some exPwProj }

theorem claim_C10_wipe_arm_fallthrough_witness :
    lowerStr "confim" ≠ "cancel" ∧ lowerStr "confim" ≠ "confirm" ∧
    lowerStr "confim" ≠ "project" ∧
    handleWipe (some exPeerProj)
        ["wipe", "confim", "x"] 42 "n3" "st3" "par" "General" "t" none =
      (some { (some exPeerProj).getD freshWipeBranchPeer with
          pendingWipe := some
            { nonce := "n3", createdAtMs := 42, kind := WipeKind.all,
              projectId := none, stamp := "st3",
              backupDir := "par" ++ "/backup_projects_ux_" ++ "st3" } },
       false, "This will WIPE ALL Projects-UX state for this DM (recovery).") :=
  ⟨by decide, by decide, by decide,
   claim_C10_wipe_arm_fallthrough (some exPeerProj)
     "confim" ["x"] 42 "n3" "st3" "par" "General" "t" none
     (by decide) (by decide) (by decide)⟩

/-- C2 (amended): the validation refusals of `switch` (unknown or archived
project) and `new` (project-count limit reached) return only an error
message and leave the project collection, active/previous/last ids, token
sets and pending flags unchanged; however both handlers first apply
ensureDefaultProject self-healing and unconditionally set projectsEnabled
to true before validating, and `withPeerState` persists that state even on
refusal - so a refused command can still enable Projects mode.  The
persisted peer is exactly the self-healed input with projectsEnabled set
to true. -/
theorem claim_C2_refusal_state (S : PeerState) (key rawName rid : String)
    (maxProjects : Nat) (dn now : String) (chTg : Bool) (mid : Option Nat)
    (hkey : jsTrim key ≠ "")
    (hfind : ∀ p ∈ (findProject (healedEnabled S dn now) key).toList,
      p.archived = some true)
    (hname : jsTrim rawName ≠ "")
    (hnoexist : (healedEnabled S dn now).projects.find?
      (fun p => nonArchived p && lowerStr p.name = lowerStr (jsTrim rawName)) = none)
    (hlimit : maxProjects ≤
      ((healedEnabled S dn now).projects.filter nonArchived).length) :
    handleSwitch (some S) key dn now chTg mid =
      (some (healedEnabled S dn now), false, "Project not found: " ++ jsTrim key) ∧
    handleNew (some S) rawName rid maxProjects dn now chTg mid =
      (some (healedEnabled S dn now), false,
       "Project limit reached (" ++ toString maxProjects ++
         "). Archive old projects first.") := by
  constructor
  · unfold handleSwitch
    rw [if_neg hkey, show (some S).getD freshCommandPeer = S from rfl]
    cases hf : findProject (healedEnabled S dn now) key with
    | none => simp only [hf]
    | some p =>
      simp only [hf]
      rw [if_pos (hfind p (by rw [hf]; simp))]
  · unfold handleNew
    rw [if_neg hname, show (some S).getD freshCommandPeer = S from rfl]
    dsimp only
    rw [hnoexist, if_pos hlimit]

theorem claim_C2_refusal_state_witness :
    jsTrim "nope" ≠ "" ∧
    (∀ p ∈ (findProject (healedEnabled exPeer "General" "t") "nope").toList,
      p.archived = some true) ∧
    jsTrim "Zed" ≠ "" ∧
    (healedEnabled exPeer "General" "t").projects.find?
      (fun p => nonArchived p && lowerStr p.name = lowerStr (jsTrim "Zed")) = none ∧
    2 ≤ ((healedEnabled exPeer "General" "t").projects.filter nonArchived).length ∧
    (handleSwitch (some exPeer) "nope" "General" "t" false none =
      (some (healedEnabled exPeer "General" "t"), false,
       "Project not found: " ++ jsTrim "nope") ∧
     handleNew (some exPeer) "Zed" "r1" 2 "General" "t" false none =
      (some (healedEnabled exPeer "General" "t"), false,
       "Project limit reached (" ++ toString 2 ++
         "). Archive old projects first.")) :=
  ⟨by decide, by decide, by decide, by decide, by decide,
   claim_C2_refusal_state exPeer "nope" "Zed" "r1" 2 "General" "t" false none
     (by decide) (by decide) (by decide) (by decide) (by decide)⟩

def exPeerOff : PeerState := { exPeer with projectsEnabled := some false }

/-- C2 counterexample: a `switch` naming an unknown project on a peer with
Projects OFF persists a different peer state (projectsEnabled becomes
true), so the claim that validation refusals cause no mutation of the
stored state fails. -/
theorem claim_C2_refusal_state_cex :
    (handleSwitch (some exPeerOff) "nope" "General" "t" false none).2.2 =
      "Project not found: nope" ∧
    (handleSwitch (some exPeerOff) "nope" "General" "t" false none).1 ≠
      some exPeerOff := by
  decide

/-- C5 (amended): executing a confirmed per-project wipe on a self-healed
peer whose collection contains the default project removes exactly the
target project; every other project, the global token set and the
projects-enabled flag are preserved; and if the removed project was the
active, previous or last-used project, the active and last-used references
are re-pointed to the default project id, the previous-project reference
is cleared (not re-pointed), and the one-shot pending-reset flag is set. -/
theorem claim_C5_wipe_one_frame (peer : PeerState) (pw : PendingWipe)
    (argN tid dn now : String) (t : Nat) (mid : Option Nat)
    (hpend : peer.pendingWipe = some pw) (hkind : pw.kind = WipeKind.project)
    (hpp : pw.projectId = some tid) (hn : argN = pw.nonce) (hpn : pw.nonce ≠ "")
    (htid0 : tid ≠ "") (ht : t - pw.createdAtMs ≤ wipeConfirmTtlMs)
    (hren : ∀ p ∈ peer.projects, renCond dn p = false)
    (htok : ∀ p ∈ peer.projects, p.tokens.isSome)
    (hglob : peer.globalTokens.isSome)
    (hact : peer.activeProjectId ≠ "")
    (hen : peer.projectsEnabled.isSome)
    (d : Project) (hdmem : d ∈ peer.projects) (hdid : d.id = defaultProjectId dn)
    (t0 : Project) (hmem : t0 ∈ peer.projects) (hid : t0.id = tid)
    (harch : nonArchived t0 = true) (htidne : tid ≠ defaultProjectId dn) :
    (confirmProject peer argN tid t dn now mid).2.1 = true ∧
    (confirmProject peer argN tid t dn now mid).1.projects =
      peer.projects.filter (fun p => p.id ≠ tid) ∧
    (confirmProject peer argN tid t dn now mid).1.globalTokens = peer.globalTokens ∧
    (confirmProject peer argN tid t dn now mid).1.projectsEnabled = peer.projectsEnabled ∧
    ((peer.activeProjectId = tid ∨ peer.previousProjectId = some tid ∨
        peer.lastProjectId = some tid) →
      (confirmProject peer argN tid t dn now mid).1.activeProjectId = defaultProjectId dn ∧
      (confirmProject peer argN tid t dn now mid).1.lastProjectId =
        some (defaultProjectId dn) ∧
      (confirmProject peer argN tid t dn now mid).1.previousProjectId = none ∧
      (confirmProject peer argN tid t dn now mid).1.pendingReset = some true) := by
  have hexp : ¬ (t - pw.createdAtMs > wipeConfirmTtlMs) := by omega
  have hmis : ¬ (argN = "" ∨ argN ≠ pw.nonce ∨ pw.kind ≠ WipeKind.project ∨
      (pw.projectId = none ∨ pw.projectId = some "") ∨ pw.projectId ≠ some tid) := by
    push_neg
    refine ⟨by rw [hn]; exact hpn, hn, hkind, ⟨?_, ?_⟩, by rw [hpp]⟩
    · rw [hpp]
      simp
    · rw [hpp]
      simp [htid0]
  simp only [confirmProject, hpend, if_neg hexp, if_neg hmis]
  obtain ⟨P, hP1, hP2, hP3, hP4, hP5, hP6⟩ :=
    wipeOne_success_spec { peer with pendingWipe := none } tid dn now mid
      hren htok hglob hact hen d hdmem hdid t0 hmem hid harch htidne
  simp only [hP1, hP2, Option.getD_some]
  exact ⟨trivial, hP3, hP4, hP5, fun hc => hP6 hc⟩

def exPeerPrev : PeerState :=
  { projectsEnabled := some true, activeProjectId := "proj-general",
    previousProjectId := some "proj-work", effectiveFromMessageId := some 3,
    lastProjectId := some "proj-general", pendingReset := some false,
    projects := [exGeneral, exWork], globalTokens := some ["g1"],
    pendingWipe := some exPwProj }

theorem claim_C5_wipe_one_frame_witness :
    exPeerPrev.pendingWipe = some exPwProj ∧
    ((confirmProject exPeerPrev "ff00ff00" "proj-work" 600 "General" "t" none).2.1 = true ∧
     (confirmProject exPeerPrev "ff00ff00" "proj-work" 600 "General" "t" none).1.projects =
       exPeerPrev.projects.filter (fun p => p.id ≠ "proj-work") ∧
     (confirmProject exPeerPrev "ff00ff00" "proj-work" 600 "General" "t" none).1.globalTokens =
       exPeerPrev.globalTokens ∧
     (confirmProject exPeerPrev "ff00ff00" "proj-work" 600 "General" "t" none).1.projectsEnabled =
       exPeerPrev.projectsEnabled ∧
     ((exPeerPrev.activeProjectId = "proj-work" ∨
         exPeerPrev.previousProjectId = some "proj-work" ∨
         exPeerPrev.lastProjectId = some "proj-work") →
       (confirmProject exPeerPrev "ff00ff00" "proj-work" 600 "General" "t" none).1.activeProjectId =
         defaultProjectId "General" ∧
       (confirmProject exPeerPrev "ff00ff00" "proj-work" 600 "General" "t" none).1.lastProjectId =
         some (defaultProjectId "General") ∧
       (confirmProject exPeerPrev "ff00ff00" "proj-work" 600 "General" "t" none).1.previousProjectId =
         none ∧
       (confirmProject exPeerPrev "ff00ff00" "proj-work" 600 "General" "t" none).1.pendingReset =
         some true)) :=
  ⟨rfl,
   claim_C5_wipe_one_frame exPeerPrev exPwProj "ff00ff00" "proj-work" "General" "t" 600 none
     rfl rfl rfl rfl (by decide) (by decide) (by decide)
     (by decide) (by decide) (by decide) (by decide) (by decide)
     exGeneral (by decide) (by decide)
     exWork (by decide) (by decide) (by decide) (by decide)⟩

/-- C5 counterexample: when the wiped project was the previous project,
the previous-project reference is cleared to none rather than re-pointed
to the default project id, so the claim that the previous reference is
re-pointed to the default project id fails. -/
theorem claim_C5_wipe_one_frame_cex :
    exPeerPrev.previousProjectId = some "proj-work" ∧
    (confirmProject exPeerPrev "ff00ff00" "proj-work" 600 "General" "t" none).2.1 = true ∧
    (confirmProject exPeerPrev "ff00ff00" "proj-work" 600 "General" "t" none).1.previousProjectId ≠
      some (defaultProjectId "General") := by
  decide

/-- C7 (amended): with hard isolation on, a telegram dm event with a
non-empty peer id, a message id, a recorded effective-from id and a
non-empty base routing key, for an enabled self-healed peer: the suffix
token is derived from the previous project id (falling back to the active
id) when the message id is strictly below the effective-from id, and from
the active id otherwise; the chosen id is sanitized and appended to the
trimmed base key with the fixed `:proj:` separator - provided the chosen
id sanitizes to a non-empty token (true for every program-generated id;
otherwise no key is returned, see the counterexample).  When the peer has
projects disabled, or the event's peer id trims to empty, no replacement
key is returned. -/
theorem claim_C7_room_key (peer peerD : PeerState) (m e : Nat)
    (peerId peerId2 roomKey : String) (dn now : String) (mid2 : Option Nat)
    (hnorm : ensureDefaultProject peer dn now = (peer, false))
    (hen : peer.projectsEnabled = some true)
    (heff : peer.effectiveFromMessageId = some e)
    (hpid : jsTrim peerId ≠ "")
    (hbase : jsTrim roomKey ≠ "")
    (hsuffix : sanitizeRoomKeySuffixToken
      (if m < e then peer.previousProjectId.getD peer.activeProjectId
       else peer.activeProjectId) ≠ "")
    (hdis : peerD.projectsEnabled = some false)
    (hpid2 : jsTrim peerId2 = "") :
    resolveRoomKey true "telegram" "dm" peerId (some m) roomKey (some peer) dn now =
      some (jsTrim roomKey ++ ":proj:" ++ sanitizeRoomKeySuffixToken
        (if m < e then peer.previousProjectId.getD peer.activeProjectId
         else peer.activeProjectId)) ∧
    resolveRoomKey true "telegram" "dm" peerId mid2 roomKey (some peerD) dn now = none ∧
    resolveRoomKey true "telegram" "dm" peerId2 mid2 roomKey (some peer) dn now = none := by
  have htriv1 : ¬¬((true : Bool) = true) := fun hc => hc rfl
  have htriv2 : ¬(("telegram" : String) ≠ "telegram") := fun hc => hc rfl
  have htriv3 : ¬(("dm" : String) ≠ "dm") := fun hc => hc rfl
  refine ⟨?_, ?_, ?_⟩
  · unfold resolveRoomKey
    rw [if_neg htriv1, if_neg htriv2, if_neg htriv3, if_neg hpid]
    dsimp only
    rw [hnorm]
    dsimp only
    rw [if_neg (show ¬(peer.projectsEnabled ≠ some true) from fun hc => hc hen)]
    rw [heff]
    dsimp only
    rw [if_neg hsuffix, if_neg hbase]
  · unfold resolveRoomKey
    rw [if_neg htriv1, if_neg htriv2, if_neg htriv3, if_neg hpid]
    dsimp only
    rw [if_pos (show (ensureDefaultProject peerD dn now).1.projectsEnabled ≠ some true
      from by rw [ensure_enabled_of_some dn now hdis]; simp)]
  · unfold resolveRoomKey
    rw [if_neg htriv1, if_neg htriv2, if_neg htriv3, if_pos hpid2]

theorem claim_C7_room_key_witness :
    ensureDefaultProject exPeer "General" "t" = (exPeer, false) ∧
    exPeer.projectsEnabled = some true ∧
    exPeer.effectiveFromMessageId = some 3 ∧
    jsTrim "77" ≠ "" ∧ jsTrim " agent:x " ≠ "" ∧
    sanitizeRoomKeySuffixToken
      (if 5 < 3 then exPeer.previousProjectId.getD exPeer.activeProjectId
       else exPeer.activeProjectId) ≠ "" ∧
    exPeerOff.projectsEnabled = some false ∧
    jsTrim " " = "" ∧
    (resolveRoomKey true "telegram" "dm" "77" (some 5) " agent:x " (some exPeer)
        "General" "t" =
      some (jsTrim " agent:x " ++ ":proj:" ++ sanitizeRoomKeySuffixToken
        (if 5 < 3 then exPeer.previousProjectId.getD exPeer.activeProjectId
         else exPeer.activeProjectId)) ∧
     resolveRoomKey true "telegram" "dm" "77" (some 9) " agent:x " (some exPeerOff)
       "General" "t" = none ∧
     resolveRoomKey true "telegram" "dm" " " (some 9) " agent:x " (some exPeer)
       "General" "t" = none) :=
  ⟨by decide, rfl, rfl, by decide, by decide, by decide, rfl, by decide,
   claim_C7_room_key exPeer exPeerOff 5 3 "77" " " " agent:x " "General" "t" (some 9)
     (by decide) rfl rfl (by decide) (by decide) (by decide) rfl (by decide)⟩

def cexHashPeer : PeerState :=
  { projectsEnabled := some true, activeProjectId := "###",
    previousProjectId := none, effectiveFromMessageId := some 3,
    lastProjectId := some "###", pendingReset := some false,
    projects := [{ id := "###", name := "H", archived := none, createdAt := "t",
                   lastUsedAt := none, note := none, tokens := some [] }],
    globalTokens := some [], pendingWipe := none }

/-- C7 counterexample: an enabled peer carrying a message id, an
effective-from id and a non-empty base key whose chosen project id
sanitizes to the empty token yields no replacement key at all, while the
claim asserts the sanitized id is appended to the base key. -/
theorem claim_C7_room_key_cex :
    cexHashPeer.projectsEnabled = some true ∧
    cexHashPeer.effectiveFromMessageId = some 3 ∧
    resolveRoomKey true "telegram" "dm" "7" (some 5) "agent:x" (some cexHashPeer)
      "General" "t" = none := by
  decide

/-- C8 (amended): the command-context key and the hook-context key agree
for every sender id that is non-empty, contains no colon, and is unchanged
by lower-casing - which holds for numeric Telegram sender ids.  In
general the hook path lower-cases the id extracted from the session key
while the command path preserves the sender id's case, so ids containing
upper-case letters disagree (see the counterexample). -/
theorem claim_C8_peer_key_agree (s pre : String)
    (channelId conversationId : Option String)
    (hne : s.data ≠ []) (hnc : ∀ c ∈ s.data, c ≠ ':')
    (hlow : lowerChars s.data = s.data) :
    buildPeerKeyFromCommandCtx (some "telegram") (some s) =
      buildPeerKeyFromBeforeAgentStart (some (pre ++ ":telegram:dm:" ++ s))
        channelId conversationId := by
  have hskdata : (lowerStr (pre ++ ":telegram:dm:" ++ s)).data =
      lowerChars pre.data ++ (":telegram:".data ++ ("dm:".data ++ s.data)) := by
    show lowerChars (pre ++ ":telegram:dm:" ++ s).data = _
    rw [data_append, data_append, lowerChars_append, lowerChars_append,
      (show lowerChars (":telegram:dm:".data) = ":telegram:dm:".data from by decide), hlow]
    rw [List.append_assoc]
    congr 1
  have hinc : jsIncludes (lowerStr (pre ++ ":telegram:dm:" ++ s)) ":telegram:" = true := by
    unfold jsIncludes
    rw [hskdata]
    exact isInfixChars_middle (":telegram:".data) (lowerChars pre.data)
      ("dm:".data ++ s.data)
  unfold buildPeerKeyFromBeforeAgentStart
  simp only [Option.getD_some]
  rw [if_pos (Or.inr hinc)]
  rw [extract_suffix pre s hne hnc hlow]
  dsimp only
  unfold buildPeerKeyFromCommandCtx
  simp only [Option.getD_some]
  apply string_eq_of_data
  rw [data_append, data_append, data_append]
  rw [show (lowerStr "telegram").data = "telegram".data from by decide]
  exact congrArg (fun l => l ++ s.data) (by decide)

theorem claim_C8_peer_key_agree_witness :
    ("777" : String).data ≠ [] ∧
    (∀ c ∈ ("777" : String).data, c ≠ ':') ∧
    lowerChars ("777" : String).data = ("777" : String).data ∧
    buildPeerKeyFromCommandCtx (some "telegram") (some "777") =
      buildPeerKeyFromBeforeAgentStart (some ("agent:main" ++ ":telegram:dm:" ++ "777"))
        (some "telegram") none :=
  ⟨by decide, by decide, by decide,
   claim_C8_peer_key_agree "777" "agent:main" (some "telegram") none
     (by decide) (by decide) (by decide)⟩

/-- C8 counterexample: for the sender id AB7 the command key preserves the
case while the hook key lower-cases the id extracted from the session key,
so the two derivation rules disagree for the same logical peer. -/
theorem claim_C8_peer_key_agree_cex :
    buildPeerKeyFromCommandCtx (some "telegram") (some "AB7") ≠
      buildPeerKeyFromBeforeAgentStart (some "agent:a:telegram:dm:AB7")
        (some "telegram") none := by
  decide

/-- C1: for an armed pending wipe whose nonce is non-empty (as generated
nonces are), the wipe-all confirm executes exactly when the supplied nonce
equals the armed nonce, the armed kind is `all`, and at most 120000 ms
elapsed since arming; the per-project confirm (armed against an existing,
non-archived, non-default target) executes exactly when additionally the
supplied project id equals the armed target; every confirm outcome leaves
no pending wipe stored, so a replayed confirm against the same arm - after
a refusal or after a successful execution - is refused. -/
theorem claim_C1_wipe_guard
    (peerA peerP : PeerState) (pwA pwP : PendingWipe)
    (argN argN2 argPid : String) (t t2 : Nat) (dn now : String) (mid : Option Nat)
    (pid : String) (target : Project)
    (hA : peerA.pendingWipe = some pwA) (hAn : pwA.nonce ≠ "")
    (hP : peerP.pendingWipe = some pwP) (hPn : pwP.nonce ≠ "")
    (hPp : pwP.projectId = some pid) (hpidne : pid ≠ "")
    (hpiddef : pid ≠ defaultProjectId dn)
    (hmem : target ∈ peerP.projects) (hid : target.id = pid)
    (harch : nonArchived target = true) :
    ((confirmAll peerA argN t dn now mid).2.1 = true ↔
      (argN = pwA.nonce ∧ pwA.kind = WipeKind.all ∧
        t - pwA.createdAtMs ≤ wipeConfirmTtlMs)) ∧
    (confirmAll peerA argN t dn now mid).1.pendingWipe = none ∧
    ((confirmProject peerP argN argPid t dn now mid).2.1 = true ↔
      (argN = pwP.nonce ∧ pwP.kind = WipeKind.project ∧ argPid = pid ∧
        t - pwP.createdAtMs ≤ wipeConfirmTtlMs)) ∧
    (confirmProject peerP argN argPid t dn now mid).1.pendingWipe = none ∧
    (confirmAll (confirmAll peerA argN t dn now mid).1 argN2 t2 dn now mid).2.1 = false ∧
    (confirmProject (confirmProject peerP argN argPid t dn now mid).1 argN2 argPid t2
      dn now mid).2.1 = false := by
  refine ⟨?_, confirmAll_pendingWipe_none hA argN t dn now mid, ?_,
    confirmProject_pendingWipe_none hP argN argPid t dn now mid,
    confirmAll_no_pending (confirmAll_pendingWipe_none hA argN t dn now mid)
      argN2 t2 dn now mid,
    confirmProject_no_pending (confirmProject_pendingWipe_none hP argN argPid t dn now mid)
      argN2 argPid t2 dn now mid⟩
  · simp only [confirmAll, hA]
    by_cases hexp : t - pwA.createdAtMs > wipeConfirmTtlMs
    · rw [if_pos hexp]
      constructor
      · intro h
        exact absurd h (by simp)
      · rintro ⟨_, _, ht⟩
        exact absurd ht (by omega)
    · rw [if_neg hexp]
      by_cases hmis : argN = "" ∨ argN ≠ pwA.nonce ∨ pwA.kind ≠ WipeKind.all
      · rw [if_pos hmis]
        constructor
        · intro h
          exact absurd h (by simp)
        · rintro ⟨hn, hk, _⟩
          refine absurd hmis ?_
          push_neg
          exact ⟨by rw [hn]; exact hAn, hn, hk⟩
      · rw [if_neg hmis]
        push_neg at hmis
        constructor
        · intro _
          exact ⟨hmis.2.1, hmis.2.2, by omega⟩
        · intro _
          rfl
  · simp only [confirmProject, hP]
    by_cases hexp : t - pwP.createdAtMs > wipeConfirmTtlMs
    · rw [if_pos hexp]
      constructor
      · intro h
        exact absurd h (by simp)
      · rintro ⟨_, _, _, ht⟩
        exact absurd ht (by omega)
    · rw [if_neg hexp]
      by_cases hmis : argN = "" ∨ argN ≠ pwP.nonce ∨ pwP.kind ≠ WipeKind.project ∨
          (pwP.projectId = none ∨ pwP.projectId = some "") ∨ pwP.projectId ≠ some argPid
      · rw [if_pos hmis]
        constructor
        · intro h
          exact absurd h (by simp)
        · rintro ⟨hn, hk, hap, _⟩
          refine absurd hmis ?_
          push_neg
          refine ⟨by rw [hn]; exact hPn, hn, hk, ⟨?_, ?_⟩, ?_⟩
          · rw [hPp]
            simp
          · rw [hPp]
            simp [hpidne]
          · rw [hPp, hap]
      · rw [if_neg hmis]
        push_neg at hmis
        have hap : argPid = pid := by
          have h5 := hmis.2.2.2.2
          rw [hPp] at h5
          exact (Option.some_inj.mp h5).symm
        subst hap
        constructor
        · intro _
          exact ⟨hmis.2.1, hmis.2.2.1, rfl, by omega⟩
        · intro _
          exact wipeOne_ok { peerP with pendingWipe := none } argPid dn now mid
            target hmem hid harch hpiddef

theorem claim_C1_wipe_guard_witness :
    exPeerAll.pendingWipe = some exPwAll ∧ exPwAll.nonce ≠ "" ∧
    exPeerPrev.pendingWipe = some exPwProj ∧ exPwProj.nonce ≠ "" ∧
    exPwProj.projectId = some "proj-work" ∧ ("proj-work" : String) ≠ "" ∧
    ("proj-work" : String) ≠ defaultProjectId "General" ∧
    exWork ∈ exPeerPrev.projects ∧ exWork.id = "proj-work" ∧
    nonArchived exWork = true ∧
    (((confirmAll exPeerAll "ab12cd34" 2000 "General" "t" none).2.1 = true ↔
       ("ab12cd34" = exPwAll.nonce ∧ exPwAll.kind = WipeKind.all ∧
         2000 - exPwAll.createdAtMs ≤ wipeConfirmTtlMs)) ∧
     (confirmAll exPeerAll "ab12cd34" 2000 "General" "t" none).1.pendingWipe = none ∧
     ((confirmProject exPeerPrev "ab12cd34" "proj-work" 2000 "General" "t" none).2.1 = true ↔
       ("ab12cd34" = exPwProj.nonce ∧ exPwProj.kind = WipeKind.project ∧
         ("proj-work" : String) = "proj-work" ∧
         2000 - exPwProj.createdAtMs ≤ wipeConfirmTtlMs)) ∧
     (confirmProject exPeerPrev "ab12cd34" "proj-work" 2000 "General" "t" none).1.pendingWipe
       = none ∧
     (confirmAll (confirmAll exPeerAll "ab12cd34" 2000 "General" "t" none).1
       "zz" 999 "General" "t" none).2.1 = false ∧
     (confirmProject
       (confirmProject exPeerPrev "ab12cd34" "proj-work" 2000 "General" "t" none).1
       "zz" "proj-work" 999 "General" "t" none).2.1 = false) :=
  ⟨rfl, by decide, rfl, by decide, rfl, by decide, by decide, by decide, by decide,
   by decide,
   claim_C1_wipe_guard exPeerAll exPeerPrev exPwAll exPwProj "ab12cd34" "zz"
     "proj-work" 2000 999 "General" "t" none "proj-work" exWork
     rfl (by decide) rfl (by decide) rfl (by decide) (by decide) (by decide)
     (by decide) (by decide)⟩

end ProjectsUx
